import Mathlib

set_option maxRecDepth 8000

/-!
Shallow embedding of a mark-and-sweep garbage collector for a tiny stack
machine (`src/lib.rs`).  Heap objects live behind raw pointers in the source;
here the arena of live boxes is modelled as an association list `Store`
mapping an allocation identifier (`Nat`) to the boxed `Object`.  A `GcPtr` is
such an identifier.  All operations are executable, and the fallible ones
(`push` asserts on stack overflow, `pop` panics on underflow) return `Option`.
-/

namespace GC

/-- `Pair { head, tail }` from the source: two optional references. -/
structure Pair where
  head : Option Nat
  tail : Option Nat
deriving DecidableEq, Repr

/-- `ObjType`: `Int(i64)` or `Pair(Pair)`. -/
inductive ObjType where
  | int (v : Int)
  | pair (p : Pair)
deriving DecidableEq, Repr

/-- `Object { marked, value }`. -/
structure Object where
  marked : Bool
  value : ObjType
deriving DecidableEq, Repr

/-- The arena of currently allocated boxes: identifier to object. -/
abbrev Store := List (Nat × Object)

/-- Dereference a `GcPtr`: find the box with the given identifier. -/
def lookupObj : Store → Nat → Option Object
  | [], _ => none
  | (k, o) :: rest, id => if k = id then some o else lookupObj rest id

/-- The identifiers of all live boxes. -/
def keys (s : Store) : List Nat := s.map Prod.fst

/-- `self.0.as_mut().marked = true` through the pointer `id`. -/
def markSet (s : Store) (id : Nat) : Store :=
  s.map fun p => if p.1 = id then (p.1, { p.2 with marked := true }) else p

/-- `GcPtr::unmark`: clear the mark bit through the pointer `id`. -/
def unmarkSet (s : Store) (id : Nat) : Store :=
  s.map fun p => if p.1 = id then (p.1, { p.2 with marked := false }) else p

/-- `GcPtr::free`: drop the box behind the pointer `id`. -/
def eraseObj (s : Store) (id : Nat) : Store :=
  s.filter fun p => p.1 != id

/-- `GcPtr::is_marked` through the pointer `id` (dangling reads are
unreachable from valid machine states; they yield `false` here). -/
def isMarkedS (s : Store) (id : Nat) : Bool :=
  match lookupObj s id with
  | some o => o.marked
  | none => false

/-- Number of unmarked boxes: the decreasing measure of the mark traversal. -/
def countUnmarked (s : Store) : Nat :=
  (s.filter fun p => !p.2.marked).length

/-- `GcPtr::mark`, fuel-indexed: if the object is already marked, return
immediately; otherwise set the bit and recurse into `head` then `tail` of a
pair.  One unit of fuel is spent per newly marked object, so
`countUnmarked s` fuel always suffices (proved below). -/
def markObj (fuel : Nat) (s : Store) (id : Nat) : Store :=
  match fuel with
  | 0 => s
  | fuel + 1 =>
    match lookupObj s id with
    | none => s
    | some obj =>
      if obj.marked then s
      else
        match obj.value with
        | .int _ => markSet s id
        | .pair p =>
          let s1 :=
            match p.head with
            | none => markSet s id
            | some h => markObj fuel (markSet s id) h
          match p.tail with
          | none => s1
          | some t => markObj fuel s1 t

/-- Mark through an optional child reference. -/
def markOpt (fuel : Nat) (s : Store) (c : Option Nat) : Store :=
  match c with
  | none => s
  | some h => markObj fuel s h

/-- A single root's `obj.mark()` call, with sufficient fuel. -/
def markRoot (s : Store) (id : Nat) : Store :=
  markObj (countUnmarked s) s id

/-- `Vm::mark_all`'s loop body over the stack slots, leftmost first. -/
def markStack : List (Option Nat) → Store → Store
  | [], s => s
  | slot :: rest, s =>
    markStack rest
      (match slot with
       | none => s
       | some id => markRoot s id)

/-- `STACK_MAX`. -/
def STACK_MAX : Nat := 256

/-- `INITIAL_GC_THRESHOLD`. -/
def INITIAL_GC_THRESHOLD : Nat := 8

/-- `Vm`: root stack (fixed 256 slots of optional references), its occupancy,
the heap registry of allocated pointers, the object counter, and the GC
threshold.  `store`/`nextId` model the process heap of boxes behind the raw
pointers. -/
structure Vm where
  stack : List (Option Nat)
  stack_size : Nat
  heap : List Nat
  num_objs : Nat
  max_objs : Nat
  store : Store
  nextId : Nat
deriving DecidableEq, Repr

/-- `Vm::new`. -/
def Vm.new : Vm :=
  { stack := List.replicate STACK_MAX none
    stack_size := 0
    heap := []
    num_objs := 0
    max_objs := INITIAL_GC_THRESHOLD
    store := []
    nextId := 0 }

/-- `Vm::push`: assert `stack_size < STACK_MAX` (`none` models the fatal
"Stack overflow!" panic), box a fresh unmarked object, place its pointer in
the next stack slot and in the heap registry, bump the counters. -/
def Vm.push (vm : Vm) (value : ObjType) : Option Vm :=
  if vm.stack_size < STACK_MAX then
    some { vm with
      store := (vm.nextId, { marked := false, value := value }) :: vm.store
      nextId := vm.nextId + 1
      stack := vm.stack.set vm.stack_size (some vm.nextId)
      heap := vm.heap ++ [vm.nextId]
      stack_size := vm.stack_size + 1
      num_objs := vm.num_objs + 1 }
  else none

/-- `Vm::pop`: decrement `stack_size` (`none` models the fatal underflow
panic when it is zero), `take()` the slot (`none` models the `unwrap` panic
on an empty slot) and return the pointer. -/
def Vm.pop (vm : Vm) : Option (Nat × Vm) :=
  if vm.stack_size = 0 then none
  else
    (vm.stack.getD (vm.stack_size - 1) none).map fun id =>
      (id, { vm with
        stack := vm.stack.set (vm.stack_size - 1) none
        stack_size := vm.stack_size - 1 })

/-- `Vm::push_int`. -/
def Vm.push_int (vm : Vm) (v : Int) : Option Vm :=
  vm.push (.int v)

/-- `Vm::push_pair`: pop the head, pop the tail, push a pair of both. -/
def Vm.push_pair (vm : Vm) : Option Vm :=
  vm.pop.bind fun h =>
    h.2.pop.bind fun t =>
      t.2.push (.pair { head := some h.1, tail := some t.1 })

/-- `Vm::mark_all`: mark from every occupied stack slot. -/
def Vm.mark_all (vm : Vm) : Vm :=
  { vm with store := markStack vm.stack vm.store }

/-- `Vm::sweep`'s loop: walk the heap registry in order; free unmarked
objects (decrementing the counter), unmark and retain the marked ones. -/
def sweepAux : List Nat → Store → Nat → List Nat → Store × Nat × List Nat
  | [], s, n, live => (s, n, live)
  | id :: rest, s, n, live =>
    match lookupObj s id with
    | none => sweepAux rest s n live
    | some obj =>
      if obj.marked then sweepAux rest (unmarkSet s id) n (live ++ [id])
      else sweepAux rest (eraseObj s id) (n - 1) live

/-- `Vm::sweep`. -/
def Vm.sweep (vm : Vm) : Vm :=
  let r := sweepAux vm.heap vm.store vm.num_objs []
  { vm with store := r.1, num_objs := r.2.1, heap := r.2.2 }

/-- `Vm::gc`: mark, sweep, then recompute the threshold from the survivors. -/
def Vm.gc (vm : Vm) : Vm :=
  let vm2 := (vm.mark_all).sweep
  { vm2 with
    max_objs :=
      if vm2.num_objs = 0 then INITIAL_GC_THRESHOLD else vm2.num_objs * 2 }

/-- `impl Drop for Vm`: clear the stack and its occupancy, then collect. -/
def Vm.dropVm (vm : Vm) : Vm :=
  Vm.gc { vm with stack_size := 0, stack := List.replicate STACK_MAX none }

/-- The public mutating operations of the machine. -/
inductive Op where
  | pushOp (value : ObjType)
  | pushIntOp (v : Int)
  | pushPairOp
  | popOp
  | gcOp
deriving DecidableEq, Repr

/-- One public operation (`none` = the operation panicked). -/
def Vm.step (vm : Vm) : Op → Option Vm
  | .pushOp value => vm.push value
  | .pushIntOp v => vm.push_int v
  | .pushPairOp => vm.push_pair
  | .popOp => (vm.pop).map Prod.snd
  | .gcOp => some vm.gc

/-- Run a sequence of public operations. -/
def runOps : List Op → Vm → Option Vm
  | [], vm => some vm
  | op :: rest, vm => (vm.step op).bind (runOps rest)

/-- A machine state in which two pair objects (identifiers 2 and 3) have been
mutated after construction to reference each other, each also holding an
integer leaf, with no roots on the stack: models the cyclic-garbage scenario
set up through raw pointers in the source's cycle test. -/
def cycVm : Vm :=
  { stack := List.replicate STACK_MAX none
    stack_size := 0
    heap := [0, 1, 2, 3]
    num_objs := 4
    max_objs := INITIAL_GC_THRESHOLD
    store := [(0, { marked := false, value := .int 10 }),
              (1, { marked := false, value := .int 20 }),
              (2, { marked := false, value := .pair { head := some 0, tail := some 3 } }),
              (3, { marked := false, value := .pair { head := some 1, tail := some 2 } })]
    nextId := 4 }

/-- The same cyclic graph with one of the two pairs held as a root. -/
def cycVmRooted : Vm :=
  { cycVm with stack := (List.replicate STACK_MAX none).set 0 (some 2), stack_size := 1 }

/-- Concrete reachable state with two scalars on the stack. -/
def vmPairProbe : Vm := (runOps [Op.pushIntOp 1, Op.pushIntOp 2] Vm.new).getD Vm.new

/-- Concrete reachable state used as a teardown witness. -/
def vmDropProbe : Vm := (runOps [Op.pushIntOp 5, Op.pushIntOp 6] Vm.new).getD Vm.new

/-- Concrete reachable state used as a counter-invariant witness. -/
def vmInvProbe : Vm :=
  (runOps [Op.pushIntOp 1, Op.pushIntOp 2, Op.gcOp] Vm.new).getD Vm.new

/-- Concrete reachable state used as a slot-invariant witness. -/
def vmSlotsProbe : Vm :=
  (runOps [Op.pushIntOp 7, Op.pushIntOp 8, Op.popOp] Vm.new).getD Vm.new

/-! ### List helpers -/

theorem getD_set_self {α : Type} (l : List α) (n : Nat) (a d : α) (h : n < l.length) :
    (l.set n a).getD n d = a := by
  induction l generalizing n with
  | nil => simp at h
  | cons x xs ih =>
    cases n with
    | zero => rfl
    | succ m => exact ih m (by simpa using h)

theorem getD_set_ne {α : Type} (l : List α) (m n : Nat) (a d : α) (h : m ≠ n) :
    (l.set n a).getD m d = l.getD m d := by
  induction l generalizing m n with
  | nil => rfl
  | cons x xs ih =>
    cases n with
    | zero =>
      cases m with
      | zero => exact absurd rfl h
      | succ k => rfl
    | succ n' =>
      cases m with
      | zero => rfl
      | succ m' => exact ih m' n' (fun hc => h (by rw [hc]))

theorem getD_replicate {α : Type} (n i : Nat) (d : α) :
    (List.replicate n d).getD i d = d := by
  induction n generalizing i with
  | zero => rfl
  | succ m ih =>
    cases i with
    | zero => rfl
    | succ j => simpa [List.replicate] using ih j

theorem getD_eq_get {α : Type} (l : List α) (i : Nat) (d : α) (h : i < l.length) :
    l.getD i d = l.get ⟨i, h⟩ := by
  induction l generalizing i with
  | nil => simp at h
  | cons x xs ih =>
    cases i with
    | zero => rfl
    | succ j => exact ih j (by simpa using h)

theorem getD_eq_of_le {α : Type} (l : List α) (i : Nat) (d : α) (h : l.length ≤ i) :
    l.getD i d = d := by
  induction l generalizing i with
  | nil => cases i <;> rfl
  | cons x xs ih =>
    cases i with
    | zero => simp at h
    | succ j => exact ih j (by simpa using h)

theorem mem_of_getD {α : Type} (l : List α) (i : Nat) (a d : α)
    (h : l.getD i d = a) (hne : a ≠ d) : a ∈ l := by
  by_cases hi : i < l.length
  · rw [getD_eq_get l i d hi] at h
    exact h ▸ List.get_mem l i hi
  · rw [getD_eq_of_le l i d (Nat.le_of_not_lt hi)] at h
    exact absurd h.symm hne

theorem all_eq_of_getD {α : Type} (l : List α) (d : α)
    (h : ∀ i, l.getD i d = d) : ∀ x ∈ l, x = d := by
  intro x hx
  rcases List.mem_iff_get.mp hx with ⟨⟨i, hi⟩, rfl⟩
  rw [← getD_eq_get l i d hi]
  exact h i

theorem getD_mem_of_lt {α : Type} (l : List α) (i : Nat) (d : α) (h : i < l.length) :
    l.getD i d ∈ l := by
  rw [getD_eq_get l i d h]
  exact List.get_mem l i h

theorem length_filter_partition {α : Type} (l : List α) (p : α → Bool) :
    (l.filter p).length + (l.filter (fun x => !p x)).length = l.length := by
  induction l with
  | nil => rfl
  | cons x xs ih =>
    cases hx : p x <;> simp [List.filter_cons, hx, ← ih] <;> omega

/-! ### Store lookup lemmas -/

theorem lookup_isSome_iff (s : Store) (id : Nat) :
    (lookupObj s id).isSome = true ↔ id ∈ keys s := by
  induction s with
  | nil => simp [lookupObj, keys]
  | cons p rest ih =>
    by_cases h : p.1 = id
    · simp [lookupObj, keys, h]
    · simp only [lookupObj, keys, List.map_cons, List.mem_cons, if_neg h]
      rw [ih]
      constructor
      · exact fun hm => Or.inr hm
      · rintro (hk | hm)
        · exact absurd hk.symm h
        · exact hm

theorem lookup_eq_none_iff (s : Store) (id : Nat) :
    lookupObj s id = none ↔ id ∉ keys s := by
  rw [← lookup_isSome_iff]
  cases lookupObj s id <;> simp

theorem lookup_mem (s : Store) (id : Nat) (o : Object)
    (h : lookupObj s id = some o) : (id, o) ∈ s := by
  induction s with
  | nil => simp [lookupObj] at h
  | cons p rest ih =>
    by_cases hp : p.1 = id
    · rw [lookupObj, if_pos hp] at h
      have h2 : p.2 = o := Option.some.inj h
      refine List.mem_cons.mpr (Or.inl ?_)
      cases p
      simp only at hp h2
      rw [hp, h2]
    · rw [lookupObj, if_neg hp] at h
      exact List.mem_cons_of_mem _ (ih h)

theorem mem_lookup (s : Store) (id : Nat) (o : Object)
    (hnd : (keys s).Nodup) (h : (id, o) ∈ s) : lookupObj s id = some o := by
  induction s with
  | nil => simp at h
  | cons p rest ih =>
    simp only [keys, List.map_cons, List.nodup_cons] at hnd
    rcases List.mem_cons.mp h with heq | hm
    · rw [← heq]
      simp [lookupObj]
    · have hne : p.1 ≠ id := by
        intro hc
        exact hnd.1 (hc ▸ (List.mem_map.mpr ⟨(id, o), hm, rfl⟩))
      rw [lookupObj, if_neg hne]
      exact ih hnd.2 hm

/-! ### markSet / unmarkSet / eraseObj lemmas -/

theorem keys_markSet (s : Store) (id : Nat) : keys (markSet s id) = keys s := by
  induction s with
  | nil => rfl
  | cons p rest ih =>
    by_cases h : p.1 = id <;> simp [markSet, keys, h] <;>
      simpa [markSet, keys] using ih

theorem keys_unmarkSet (s : Store) (id : Nat) : keys (unmarkSet s id) = keys s := by
  induction s with
  | nil => rfl
  | cons p rest ih =>
    by_cases h : p.1 = id <;> simp [unmarkSet, keys, h] <;>
      simpa [unmarkSet, keys] using ih

theorem keys_erase (s : Store) (id : Nat) :
    keys (eraseObj s id) = (keys s).filter (fun k => k != id) := by
  induction s with
  | nil => rfl
  | cons p rest ih =>
    by_cases h : p.1 = id <;>
      simp [eraseObj, keys, List.filter_cons, h] at ih ⊢ <;>
      simpa [eraseObj, keys] using ih

theorem markSet_cons_eq (a : Nat) (o : Object) (rest : Store) (id : Nat) (h : a = id) :
    markSet ((a, o) :: rest) id = (a, { o with marked := true }) :: markSet rest id := by
  simp [markSet, h]

theorem markSet_cons_ne (a : Nat) (o : Object) (rest : Store) (id : Nat) (h : ¬a = id) :
    markSet ((a, o) :: rest) id = (a, o) :: markSet rest id := by
  simp [markSet, h]

theorem lookup_markSet (s : Store) (id k : Nat) :
    lookupObj (markSet s id) k =
      (lookupObj s k).map (fun o => if k = id then { o with marked := true } else o) := by
  induction s with
  | nil => rfl
  | cons p rest ih =>
    rcases p with ⟨a, o⟩
    by_cases hid : a = id
    · rw [markSet_cons_eq a o rest id hid]
      by_cases hk : a = k
      · subst hk
        simp [lookupObj, hid]
      · simp only [lookupObj, if_neg hk]
        exact ih
    · rw [markSet_cons_ne a o rest id hid]
      by_cases hk : a = k
      · subst hk
        simp [lookupObj, hid]
      · simp only [lookupObj, if_neg hk]
        exact ih

theorem unmarkSet_cons_eq (a : Nat) (o : Object) (rest : Store) (id : Nat) (h : a = id) :
    unmarkSet ((a, o) :: rest) id = (a, { o with marked := false }) :: unmarkSet rest id := by
  simp [unmarkSet, h]

theorem unmarkSet_cons_ne (a : Nat) (o : Object) (rest : Store) (id : Nat) (h : ¬a = id) :
    unmarkSet ((a, o) :: rest) id = (a, o) :: unmarkSet rest id := by
  simp [unmarkSet, h]

theorem lookup_unmarkSet (s : Store) (id k : Nat) :
    lookupObj (unmarkSet s id) k =
      (lookupObj s k).map (fun o => if k = id then { o with marked := false } else o) := by
  induction s with
  | nil => rfl
  | cons p rest ih =>
    rcases p with ⟨a, o⟩
    by_cases hid : a = id
    · rw [unmarkSet_cons_eq a o rest id hid]
      by_cases hk : a = k
      · subst hk
        simp [lookupObj, hid]
      · simp only [lookupObj, if_neg hk]
        exact ih
    · rw [unmarkSet_cons_ne a o rest id hid]
      by_cases hk : a = k
      · subst hk
        simp [lookupObj, hid]
      · simp only [lookupObj, if_neg hk]
        exact ih

theorem erase_cons_eq (a : Nat) (o : Object) (rest : Store) (id : Nat) (h : a = id) :
    eraseObj ((a, o) :: rest) id = eraseObj rest id := by
  simp [eraseObj, h]

theorem erase_cons_ne (a : Nat) (o : Object) (rest : Store) (id : Nat) (h : ¬a = id) :
    eraseObj ((a, o) :: rest) id = (a, o) :: eraseObj rest id := by
  simp [eraseObj, h]

theorem lookup_erase (s : Store) (id k : Nat) :
    lookupObj (eraseObj s id) k = if k = id then none else lookupObj s k := by
  induction s with
  | nil => simp [eraseObj, lookupObj]
  | cons p rest ih =>
    rcases p with ⟨a, o⟩
    by_cases hid : a = id
    · rw [erase_cons_eq a o rest id hid, ih]
      by_cases hk : k = id
      · rw [if_pos hk, if_pos hk]
      · have hak : ¬a = k := fun hc => hk (hc ▸ hid)
        rw [if_neg hk, if_neg hk, lookupObj, if_neg hak]
    · rw [erase_cons_ne a o rest id hid]
      by_cases hk : a = k
      · subst hk
        simp [lookupObj, hid]
      · simp only [lookupObj, if_neg hk]
        exact ih

/-! ### countUnmarked lemmas -/

theorem count_cons (p : Nat × Object) (s : Store) :
    countUnmarked (p :: s) =
      (if p.2.marked then 0 else 1) + countUnmarked s := by
  cases h : p.2.marked <;> simp [countUnmarked, List.filter_cons, h] <;> omega

theorem count_markSet_le (s : Store) (id : Nat) :
    countUnmarked (markSet s id) ≤ countUnmarked s := by
  induction s with
  | nil => simp [markSet]
  | cons p rest ih =>
    by_cases h : p.1 = id
    · have : markSet (p :: rest) id =
        (p.1, { p.2 with marked := true }) :: markSet rest id := by
        simp [markSet, h]
      rw [this, count_cons, count_cons]
      cases p.2.marked <;> simp <;> omega
    · have : markSet (p :: rest) id = p :: markSet rest id := by
        simp [markSet, h]
      rw [this, count_cons, count_cons]
      omega

theorem count_markSet_lt (s : Store) (id : Nat) (o : Object)
    (hl : lookupObj s id = some o) (hm : o.marked = false) :
    countUnmarked (markSet s id) < countUnmarked s := by
  induction s with
  | nil => simp [lookupObj] at hl
  | cons p rest ih =>
    by_cases h : p.1 = id
    · rw [lookupObj, if_pos h] at hl
      cases hl
      have heq : markSet (p :: rest) id =
          (p.1, { p.2 with marked := true }) :: markSet rest id := by
        simp [markSet, h]
      rw [heq, count_cons, count_cons, hm]
      have := count_markSet_le rest id
      simp
      omega
    · rw [lookupObj, if_neg h] at hl
      have heq : markSet (p :: rest) id = p :: markSet rest id := by
        simp [markSet, h]
      rw [heq, count_cons, count_cons]
      have := ih hl
      omega

/-! ### Mark traversal lemmas -/

theorem markObj_succ (fuel : Nat) (s : Store) (id : Nat) :
    markObj (fuel + 1) s id =
      match lookupObj s id with
      | none => s
      | some obj =>
        if obj.marked then s
        else
          match obj.value with
          | .int _ => markSet s id
          | .pair p => markOpt fuel (markOpt fuel (markSet s id) p.head) p.tail := by
  cases h : lookupObj s id with
  | none => simp [markObj, h]
  | some obj =>
    cases hm : obj.marked with
    | true => simp [markObj, h, hm]
    | false =>
      cases hv : obj.value with
      | int v => simp [markObj, h, hm, hv]
      | pair p =>
        rcases p with ⟨ph, pt⟩
        cases ph <;> cases pt <;> simp [markObj, markOpt, h, hm, hv]

theorem eq_false_of_ne_true {b : Bool} (h : ¬b = true) : b = false := by
  cases b with
  | false => rfl
  | true => exact absurd rfl h

theorem markObj_succ_none (fuel : Nat) (s : Store) (id : Nat)
    (h : lookupObj s id = none) : markObj (fuel + 1) s id = s := by
  simp [markObj, h]

theorem markObj_succ_marked (fuel : Nat) (s : Store) (id : Nat) (obj : Object)
    (h : lookupObj s id = some obj) (hm : obj.marked = true) :
    markObj (fuel + 1) s id = s := by
  simp [markObj, h, hm]

theorem markObj_succ_int (fuel : Nat) (s : Store) (id : Nat) (obj : Object)
    (h : lookupObj s id = some obj) (hm : obj.marked = false) (v : Int)
    (hv : obj.value = .int v) : markObj (fuel + 1) s id = markSet s id := by
  simp [markObj, h, hm, hv]

theorem markObj_succ_pair (fuel : Nat) (s : Store) (id : Nat) (obj : Object)
    (h : lookupObj s id = some obj) (hm : obj.marked = false) (p : Pair)
    (hv : obj.value = .pair p) :
    markObj (fuel + 1) s id = markOpt fuel (markOpt fuel (markSet s id) p.head) p.tail := by
  rcases p with ⟨ph, pt⟩
  cases ph <;> cases pt <;> simp [markObj, markOpt, h, hm, hv]

/-- Marking can only change a box from unmarked to marked; this one-step
relation is preserved by the whole traversal. -/
def MarkLe (s s' : Store) : Prop :=
  ∀ k, lookupObj s' k = lookupObj s k ∨
    lookupObj s' k = (lookupObj s k).map (fun o => { o with marked := true })

theorem MarkLe.markLe_refl (s : Store) : MarkLe s s := fun _ => Or.inl (Eq.refl _)

theorem MarkLe.markLe_trans {s1 s2 s3 : Store} (h12 : MarkLe s1 s2) (h23 : MarkLe s2 s3) :
    MarkLe s1 s3 := by
  intro k
  have hmm : ((lookupObj s1 k).map (fun o => { o with marked := true })).map
      (fun o => { o with marked := true }) =
      (lookupObj s1 k).map (fun o => { o with marked := true }) := by
    cases lookupObj s1 k <;> rfl
  rcases h23 k with h3 | h3 <;> rcases h12 k with h2 | h2
  · exact Or.inl (h3.trans h2)
  · exact Or.inr (h3.trans h2)
  · exact Or.inr (by rw [h3, h2])
  · exact Or.inr (by rw [h3, h2, hmm])

/-- The combined facts preserved by every step of the mark traversal. -/
def MarkStep (s s' : Store) : Prop :=
  keys s' = keys s ∧ countUnmarked s' ≤ countUnmarked s ∧ MarkLe s s'

theorem MarkStep.markStep_refl (s : Store) : MarkStep s s :=
  ⟨Eq.refl _, Nat.le_refl _, MarkLe.markLe_refl s⟩

theorem MarkStep.markStep_trans {s1 s2 s3 : Store} (h12 : MarkStep s1 s2) (h23 : MarkStep s2 s3) :
    MarkStep s1 s3 :=
  ⟨h23.1.trans h12.1, h23.2.1.trans h12.2.1, h12.2.2.markLe_trans h23.2.2⟩

theorem markSet_markStep (s : Store) (id : Nat) : MarkStep s (markSet s id) := by
  refine ⟨keys_markSet s id, count_markSet_le s id, ?_⟩
  intro k
  rw [lookup_markSet]
  by_cases hk : k = id
  · simp [hk]
  · simp [hk]

theorem markObj_markStep (fuel : Nat) (s : Store) (id : Nat) :
    MarkStep s (markObj fuel s id) := by
  induction fuel generalizing s id with
  | zero => exact MarkStep.markStep_refl s
  | succ f ih =>
    have ihOpt : ∀ (s' : Store) (c : Option Nat), MarkStep s' (markOpt f s' c) := by
      intro s' c
      cases c with
      | none => exact MarkStep.markStep_refl s'
      | some h => exact ih s' h
    cases h : lookupObj s id with
    | none =>
      rw [markObj_succ_none f s id h]
      exact MarkStep.markStep_refl s
    | some obj =>
      by_cases hm : obj.marked = true
      · rw [markObj_succ_marked f s id obj h hm]
        exact MarkStep.markStep_refl s
      · have hmf := eq_false_of_ne_true hm
        cases hv : obj.value with
        | int v =>
          rw [markObj_succ_int f s id obj h hmf v hv]
          exact markSet_markStep s id
        | pair p =>
          rw [markObj_succ_pair f s id obj h hmf p hv]
          exact ((markSet_markStep s id).markStep_trans (ihOpt _ p.head)).markStep_trans (ihOpt _ p.tail)

theorem markOpt_markStep (fuel : Nat) (s : Store) (c : Option Nat) :
    MarkStep s (markOpt fuel s c) := by
  cases c with
  | none => exact MarkStep.markStep_refl s
  | some h => exact markObj_markStep fuel s h

theorem keys_markObj (fuel : Nat) (s : Store) (id : Nat) :
    keys (markObj fuel s id) = keys s :=
  (markObj_markStep fuel s id).1

theorem count_markObj_le (fuel : Nat) (s : Store) (id : Nat) :
    countUnmarked (markObj fuel s id) ≤ countUnmarked s :=
  (markObj_markStep fuel s id).2.1

theorem count_markOpt_le (fuel : Nat) (s : Store) (c : Option Nat) :
    countUnmarked (markOpt fuel s c) ≤ countUnmarked s :=
  (markOpt_markStep fuel s c).2.1

theorem MarkLe.marked_preserved {s s' : Store} (h : MarkLe s s') (k : Nat)
    (hm : isMarkedS s k = true) : isMarkedS s' k = true := by
  unfold isMarkedS at hm ⊢
  rcases h k with h1 | h1 <;> rw [h1]
  · exact hm
  · cases hl : lookupObj s k with
    | none => rw [hl] at hm; simp at hm
    | some o => simp

theorem MarkLe.value_preserved {s s' : Store} (h : MarkLe s s') (k : Nat) (o : Object)
    (hl : lookupObj s k = some o) :
    lookupObj s' k = some o ∨ lookupObj s' k = some { o with marked := true } := by
  rcases h k with h1 | h1 <;> rw [h1, hl]
  · exact Or.inl rfl
  · exact Or.inr rfl

/-- All boxes marked: the traversal is the identity. -/
theorem markObj_all_marked (fuel : Nat) (s : Store) (id : Nat)
    (h : countUnmarked s = 0) : markObj fuel s id = s := by
  cases fuel with
  | zero => rfl
  | succ f =>
    cases hl : lookupObj s id with
    | none => exact markObj_succ_none f s id hl
    | some obj =>
      have hmem := lookup_mem s id obj hl
      have hfil : s.filter (fun p => !p.2.marked) = [] :=
        List.length_eq_zero.mp h
      have hall := List.filter_eq_nil.mp hfil
      have := hall _ hmem
      have hm : obj.marked = true := by
        cases hmo : obj.marked
        · exact absurd (by simp [hmo]) this
        · rfl
      exact markObj_succ_marked f s id obj hl hm

/-- Fuel insensitivity: any fuel at least `countUnmarked s` computes the same
result — the traversal genuinely terminates after finitely many steps. -/
theorem markObj_stable (c : Nat) : ∀ (s : Store) (f g id : Nat),
    countUnmarked s ≤ c → countUnmarked s ≤ f → countUnmarked s ≤ g →
    markObj f s id = markObj g s id := by
  induction c with
  | zero =>
    intro s f g id hc _ _
    have h0 : countUnmarked s = 0 := Nat.le_zero.mp hc
    rw [markObj_all_marked f s id h0, markObj_all_marked g s id h0]
  | succ c ih =>
    intro s f g id hc hf hg
    by_cases h0 : countUnmarked s = 0
    · rw [markObj_all_marked f s id h0, markObj_all_marked g s id h0]
    · have hpos : 1 ≤ countUnmarked s := Nat.one_le_iff_ne_zero.mpr h0
      obtain ⟨f', rfl⟩ : ∃ f', f = f' + 1 := by
        cases f with
        | zero => omega
        | succ f' => exact ⟨f', rfl⟩
      obtain ⟨g', rfl⟩ : ∃ g', g = g' + 1 := by
        cases g with
        | zero => omega
        | succ g' => exact ⟨g', rfl⟩
      cases hl : lookupObj s id with
      | none => rw [markObj_succ_none f' s id hl, markObj_succ_none g' s id hl]
      | some obj =>
        by_cases hm : obj.marked = true
        · rw [markObj_succ_marked f' s id obj hl hm, markObj_succ_marked g' s id obj hl hm]
        · have hmf := eq_false_of_ne_true hm
          cases hv : obj.value with
          | int v =>
            rw [markObj_succ_int f' s id obj hl hmf v hv,
              markObj_succ_int g' s id obj hl hmf v hv]
          | pair p =>
            rw [markObj_succ_pair f' s id obj hl hmf p hv,
              markObj_succ_pair g' s id obj hl hmf p hv]
            have hlt : countUnmarked (markSet s id) < countUnmarked s :=
              count_markSet_lt s id obj hl hmf
            have hs1c : countUnmarked (markSet s id) ≤ c := by omega
            have hs1f : countUnmarked (markSet s id) ≤ f' := by omega
            have hs1g : countUnmarked (markSet s id) ≤ g' := by omega
            have h1 : markOpt f' (markSet s id) p.head = markOpt g' (markSet s id) p.head := by
              cases p.head with
              | none => rfl
              | some hh => exact ih (markSet s id) f' g' hh hs1c hs1f hs1g
            rw [h1]
            have hc2 : countUnmarked (markOpt g' (markSet s id) p.head) ≤
                countUnmarked (markSet s id) := count_markOpt_le g' _ p.head
            cases p.tail with
            | none => rfl
            | some tt =>
              exact ih (markOpt g' (markSet s id) p.head) f' g' tt
                (by omega) (by omega) (by omega)

/-- Marking a present box does mark it. -/
theorem markObj_marks_self (fuel : Nat) (s : Store) (id : Nat) (o : Object)
    (hl : lookupObj s id = some o) (hf : 1 ≤ fuel) :
    isMarkedS (markObj fuel s id) id = true := by
  obtain ⟨f, rfl⟩ : ∃ f, fuel = f + 1 := by
    cases fuel with
    | zero => omega
    | succ f => exact ⟨f, rfl⟩
  by_cases hm : o.marked = true
  · rw [markObj_succ_marked f s id o hl hm]
    simp [isMarkedS, hl, hm]
  · have hmf := eq_false_of_ne_true hm
    have hms : isMarkedS (markSet s id) id = true := by
      unfold isMarkedS
      rw [lookup_markSet, hl]
      simp
    cases hv : o.value with
    | int v =>
      rw [markObj_succ_int f s id o hl hmf v hv]
      exact hms
    | pair p =>
      rw [markObj_succ_pair f s id o hl hmf p hv]
      exact ((markOpt_markStep f _ p.head).2.2.markLe_trans
        (markOpt_markStep f _ p.tail).2.2).marked_preserved id hms

theorem markRoot_marks_self (s : Store) (id : Nat) (hmem : id ∈ keys s) :
    isMarkedS (markRoot s id) id = true := by
  obtain ⟨o, hl⟩ : ∃ o, lookupObj s id = some o := by
    have := (lookup_isSome_iff s id).mpr hmem
    cases h : lookupObj s id with
    | none => rw [h] at this; simp at this
    | some o => exact ⟨o, rfl⟩
  unfold markRoot
  by_cases h0 : countUnmarked s = 0
  · rw [markObj_all_marked _ s id h0]
    have hmem2 := lookup_mem s id o hl
    have hfil : s.filter (fun p => !p.2.marked) = [] := List.length_eq_zero.mp h0
    have := List.filter_eq_nil.mp hfil _ hmem2
    unfold isMarkedS
    rw [hl]
    cases hmo : o.marked
    · exact absurd (by simp [hmo]) this
    · simp [hmo]
  · exact markObj_marks_self _ s id o hl (Nat.one_le_iff_ne_zero.mpr h0)

theorem markRoot_markStep (s : Store) (id : Nat) : MarkStep s (markRoot s id) :=
  markObj_markStep _ s id

theorem markStack_markStep (slots : List (Option Nat)) (s : Store) :
    MarkStep s (markStack slots s) := by
  induction slots generalizing s with
  | nil => exact MarkStep.markStep_refl s
  | cons slot rest ih =>
    cases slot with
    | none => exact ih s
    | some id => exact (markRoot_markStep s id).markStep_trans (ih _)

theorem keys_markStack (slots : List (Option Nat)) (s : Store) :
    keys (markStack slots s) = keys s :=
  (markStack_markStep slots s).1

/-- Every root present in the store is marked after `mark_all`'s loop. -/
theorem markStack_marks_roots (slots : List (Option Nat)) (s : Store) (id : Nat)
    (hslot : some id ∈ slots) (hmem : id ∈ keys s) :
    isMarkedS (markStack slots s) id = true := by
  induction slots generalizing s with
  | nil => simp at hslot
  | cons slot rest ih =>
    rcases List.mem_cons.mp hslot with heq | hrest
    · rw [← heq]
      have h1 : isMarkedS (markRoot s id) id = true := markRoot_marks_self s id hmem
      exact (markStack_markStep rest _).2.2.marked_preserved id h1
    · cases slot with
      | none => exact ih s hrest hmem
      | some id2 =>
        have hmem2 : id ∈ keys (markRoot s id2) := by
          rw [(markRoot_markStep s id2).1]
          exact hmem
        exact ih _ hrest hmem2

/-- Unoccupied slots mark nothing. -/
theorem markStack_all_none (slots : List (Option Nat)) (s : Store)
    (h : ∀ x ∈ slots, x = none) : markStack slots s = s := by
  induction slots with
  | nil => rfl
  | cons slot rest ih =>
    have hs : slot = none := h slot (List.mem_cons_self _ _)
    rw [hs]
    exact ih fun x hx => h x (List.mem_cons_of_mem _ hx)

theorem markStack_append (l1 l2 : List (Option Nat)) (s : Store) :
    markStack (l1 ++ l2) s = markStack l2 (markStack l1 s) := by
  induction l1 generalizing s with
  | nil => rfl
  | cons slot rest ih => simp [markStack, ih]

/-! ### Sweep lemmas -/

theorem sweep_cons_none (rest : List Nat) (s : Store) (n : Nat) (live : List Nat)
    (id : Nat) (hl : lookupObj s id = none) :
    sweepAux (id :: rest) s n live = sweepAux rest s n live := by
  simp [sweepAux, hl]

theorem sweep_cons_marked (rest : List Nat) (s : Store) (n : Nat) (live : List Nat)
    (id : Nat) (obj : Object) (hl : lookupObj s id = some obj) (hm : obj.marked = true) :
    sweepAux (id :: rest) s n live = sweepAux rest (unmarkSet s id) n (live ++ [id]) := by
  simp [sweepAux, hl, hm]

theorem sweep_cons_unmarked (rest : List Nat) (s : Store) (n : Nat) (live : List Nat)
    (id : Nat) (obj : Object) (hl : lookupObj s id = some obj) (hm : obj.marked = false) :
    sweepAux (id :: rest) s n live = sweepAux rest (eraseObj s id) (n - 1) live := by
  simp [sweepAux, hl, hm]

theorem lookup_unmarkSet_ne (s : Store) (id k : Nat) (hk : k ≠ id) :
    lookupObj (unmarkSet s id) k = lookupObj s k := by
  rw [lookup_unmarkSet]
  cases lookupObj s k <;> simp [hk]

theorem isMarkedS_unmarkSet_ne (s : Store) (id k : Nat) (hk : k ≠ id) :
    isMarkedS (unmarkSet s id) k = isMarkedS s k := by
  unfold isMarkedS
  rw [lookup_unmarkSet_ne s id k hk]

theorem lookup_erase_ne (s : Store) (id k : Nat) (hk : k ≠ id) :
    lookupObj (eraseObj s id) k = lookupObj s k := by
  rw [lookup_erase, if_neg hk]

theorem isMarkedS_erase_ne (s : Store) (id k : Nat) (hk : k ≠ id) :
    isMarkedS (eraseObj s id) k = isMarkedS s k := by
  unfold isMarkedS
  rw [lookup_erase_ne s id k hk]

/-- Entry-level characterization of the sweep: an object in the registry
survives iff it was marked (its bit then cleared); objects outside the
registry are untouched. -/
theorem sweepAux_lookup (H : List Nat) : ∀ (s : Store) (n : Nat) (live : List Nat),
    H.Nodup → ∀ k,
    lookupObj (sweepAux H s n live).1 k =
      if k ∈ H then
        (if isMarkedS s k = true then
          (lookupObj s k).map (fun o => { o with marked := false })
        else none)
      else lookupObj s k := by
  induction H with
  | nil =>
    intro s n live _ k
    simp [sweepAux]
  | cons id rest ih =>
    intro s n live hnd k
    have hid_rest : id ∉ rest := (List.nodup_cons.mp hnd).1
    have hnd' : rest.Nodup := (List.nodup_cons.mp hnd).2
    cases hl : lookupObj s id with
    | none =>
      rw [sweep_cons_none rest s n live id hl, ih s n live hnd' k]
      by_cases hk : k = id
      · subst hk
        have hmk : isMarkedS s k = false := by unfold isMarkedS; rw [hl]
        simp [hid_rest, hl, hmk]
      · simp [List.mem_cons, hk]
    | some obj =>
      by_cases hm : obj.marked = true
      · rw [sweep_cons_marked rest s n live id obj hl hm,
          ih (unmarkSet s id) n (live ++ [id]) hnd' k]
        by_cases hk : k = id
        · subst hk
          have hmk : isMarkedS s k = true := by unfold isMarkedS; rw [hl]; exact hm
          have hun : lookupObj (unmarkSet s k) k = some { obj with marked := false } := by
            rw [lookup_unmarkSet, hl]
            simp
          simp [hid_rest, hl, hmk, hun]
        · rw [lookup_unmarkSet_ne s id k hk, isMarkedS_unmarkSet_ne s id k hk]
          simp [List.mem_cons, hk]
      · have hmf := eq_false_of_ne_true hm
        rw [sweep_cons_unmarked rest s n live id obj hl hmf,
          ih (eraseObj s id) (n - 1) live hnd' k]
        by_cases hk : k = id
        · subst hk
          have hmk : isMarkedS s k = false := by unfold isMarkedS; rw [hl]; exact hmf
          have her : lookupObj (eraseObj s k) k = none := by
            rw [lookup_erase, if_pos rfl]
          simp [hid_rest, hmk, her]
        · rw [lookup_erase_ne s id k hk, isMarkedS_erase_ne s id k hk]
          simp [List.mem_cons, hk]

/-- The survivors list is the registry filtered to the marked objects. -/
theorem sweepAux_live (H : List Nat) : ∀ (s : Store) (n : Nat) (live : List Nat),
    H.Nodup → (∀ id ∈ H, id ∈ keys s) →
    (sweepAux H s n live).2.2 = live ++ H.filter (fun id => isMarkedS s id) := by
  induction H with
  | nil =>
    intro s n live _ _
    simp [sweepAux]
  | cons id rest ih =>
    intro s n live hnd hsub
    have hid_rest : id ∉ rest := (List.nodup_cons.mp hnd).1
    have hnd' : rest.Nodup := (List.nodup_cons.mp hnd).2
    obtain ⟨obj, hl⟩ : ∃ o, lookupObj s id = some o := by
      have := (lookup_isSome_iff s id).mpr (hsub id (List.mem_cons_self _ _))
      cases h : lookupObj s id with
      | none => rw [h] at this; simp at this
      | some o => exact ⟨o, rfl⟩
    have hrest_sub : ∀ x ∈ rest, x ∈ keys s :=
      fun x hx => hsub x (List.mem_cons_of_mem _ hx)
    by_cases hm : obj.marked = true
    · rw [sweep_cons_marked rest s n live id obj hl hm]
      have hsub' : ∀ x ∈ rest, x ∈ keys (unmarkSet s id) := by
        rw [keys_unmarkSet]
        exact hrest_sub
      rw [ih (unmarkSet s id) n (live ++ [id]) hnd' hsub']
      have hcong : rest.filter (fun x => isMarkedS (unmarkSet s id) x) =
          rest.filter (fun x => isMarkedS s x) := by
        apply List.filter_congr
        intro x hx
        exact isMarkedS_unmarkSet_ne s id x (fun hc => hid_rest (hc ▸ hx))
      have hmk : isMarkedS s id = true := by unfold isMarkedS; rw [hl]; exact hm
      rw [hcong, List.filter_cons, if_pos (by simp [hmk])]
      simp
    · have hmf := eq_false_of_ne_true hm
      rw [sweep_cons_unmarked rest s n live id obj hl hmf]
      have hsub' : ∀ x ∈ rest, x ∈ keys (eraseObj s id) := by
        intro x hx
        rw [keys_erase]
        refine List.mem_filter.mpr ⟨hrest_sub x hx, ?_⟩
        simp
        exact fun hc => hid_rest (hc ▸ hx)
      rw [ih (eraseObj s id) (n - 1) live hnd' hsub']
      have hcong : rest.filter (fun x => isMarkedS (eraseObj s id) x) =
          rest.filter (fun x => isMarkedS s x) := by
        apply List.filter_congr
        intro x hx
        exact isMarkedS_erase_ne s id x (fun hc => hid_rest (hc ▸ hx))
      have hmk : isMarkedS s id = false := by unfold isMarkedS; rw [hl]; exact hmf
      rw [hcong, List.filter_cons, if_neg (by simp [hmk])]

/-- The counter is decremented once per freed (unmarked) registry entry. -/
theorem sweepAux_count (H : List Nat) : ∀ (s : Store) (n : Nat) (live : List Nat),
    H.Nodup → (∀ id ∈ H, id ∈ keys s) →
    (sweepAux H s n live).2.1 = n - (H.filter (fun id => !(isMarkedS s id))).length := by
  induction H with
  | nil =>
    intro s n live _ _
    simp [sweepAux]
  | cons id rest ih =>
    intro s n live hnd hsub
    have hid_rest : id ∉ rest := (List.nodup_cons.mp hnd).1
    have hnd' : rest.Nodup := (List.nodup_cons.mp hnd).2
    obtain ⟨obj, hl⟩ : ∃ o, lookupObj s id = some o := by
      have := (lookup_isSome_iff s id).mpr (hsub id (List.mem_cons_self _ _))
      cases h : lookupObj s id with
      | none => rw [h] at this; simp at this
      | some o => exact ⟨o, rfl⟩
    have hrest_sub : ∀ x ∈ rest, x ∈ keys s :=
      fun x hx => hsub x (List.mem_cons_of_mem _ hx)
    by_cases hm : obj.marked = true
    · rw [sweep_cons_marked rest s n live id obj hl hm]
      have hsub' : ∀ x ∈ rest, x ∈ keys (unmarkSet s id) := by
        rw [keys_unmarkSet]
        exact hrest_sub
      rw [ih (unmarkSet s id) n (live ++ [id]) hnd' hsub']
      have hcong : rest.filter (fun x => !(isMarkedS (unmarkSet s id) x)) =
          rest.filter (fun x => !(isMarkedS s x)) := by
        apply List.filter_congr
        intro x hx
        rw [isMarkedS_unmarkSet_ne s id x (fun hc => hid_rest (hc ▸ hx))]
      have hmk : isMarkedS s id = true := by unfold isMarkedS; rw [hl]; exact hm
      rw [hcong, List.filter_cons, if_neg (by simp [hmk])]
    · have hmf := eq_false_of_ne_true hm
      rw [sweep_cons_unmarked rest s n live id obj hl hmf]
      have hsub' : ∀ x ∈ rest, x ∈ keys (eraseObj s id) := by
        intro x hx
        rw [keys_erase]
        refine List.mem_filter.mpr ⟨hrest_sub x hx, ?_⟩
        simp
        exact fun hc => hid_rest (hc ▸ hx)
      rw [ih (eraseObj s id) (n - 1) live hnd' hsub']
      have hcong : rest.filter (fun x => !(isMarkedS (eraseObj s id) x)) =
          rest.filter (fun x => !(isMarkedS s x)) := by
        apply List.filter_congr
        intro x hx
        rw [isMarkedS_erase_ne s id x (fun hc => hid_rest (hc ▸ hx))]
      have hmk : isMarkedS s id = false := by unfold isMarkedS; rw [hl]; exact hmf
      rw [hcong, List.filter_cons, if_pos (by simp [hmk])]
      simp [Nat.sub_sub, Nat.add_comm]

/-- Sweeping never breaks key distinctness of the arena. -/
theorem sweepAux_keys_nodup (H : List Nat) : ∀ (s : Store) (n : Nat) (live : List Nat),
    (keys s).Nodup → (keys (sweepAux H s n live).1).Nodup := by
  induction H with
  | nil =>
    intro s n live hknd
    simpa [sweepAux] using hknd
  | cons id rest ih =>
    intro s n live hknd
    cases hl : lookupObj s id with
    | none =>
      rw [sweep_cons_none rest s n live id hl]
      exact ih s n live hknd
    | some obj =>
      by_cases hm : obj.marked = true
      · rw [sweep_cons_marked rest s n live id obj hl hm]
        exact ih _ n _ (by rw [keys_unmarkSet]; exact hknd)
      · rw [sweep_cons_unmarked rest s n live id obj hl (eq_false_of_ne_true hm)]
        exact ih _ _ _ (by rw [keys_erase]; exact hknd.filter _)

/-! ### Machine invariants -/

/-- The state invariant maintained by every public operation: the stack has
exactly `STACK_MAX` slots, occupied below `stack_size` and empty at or above
it; the counter equals the registry size; registry and arena hold the same
distinct identifiers; every box is unmarked between collections; identifiers
are below the allocation cursor; stack slots point into the registry and no
two slots alias. -/
structure Inv (vm : Vm) : Prop where
  stack_len : vm.stack.length = STACK_MAX
  size_le : vm.stack_size ≤ STACK_MAX
  slots_lo : ∀ i, i < vm.stack_size → (vm.stack.getD i none).isSome = true
  slots_hi : ∀ i, vm.stack_size ≤ i → vm.stack.getD i none = none
  count : vm.num_objs = vm.heap.length
  heap_sub : ∀ id ∈ vm.heap, id ∈ keys vm.store
  store_sub : ∀ k ∈ keys vm.store, k ∈ vm.heap
  heap_nodup : vm.heap.Nodup
  keys_nodup : (keys vm.store).Nodup
  unmarked : ∀ p ∈ vm.store, p.2.marked = false
  heap_lt : ∀ id ∈ vm.heap, id < vm.nextId
  stack_sub : ∀ i id, vm.stack.getD i none = some id → id ∈ vm.heap
  stack_inj : ∀ i j id, vm.stack.getD i none = some id →
    vm.stack.getD j none = some id → i = j

theorem inv_new : Inv Vm.new := by
  refine
    { stack_len := ?_, size_le := ?_, slots_lo := ?_, slots_hi := ?_, count := ?_,
      heap_sub := ?_, store_sub := ?_, heap_nodup := ?_, keys_nodup := ?_,
      unmarked := ?_, heap_lt := ?_, stack_sub := ?_, stack_inj := ?_ }
  · exact List.length_replicate _ _
  · exact Nat.zero_le _
  · intro i hi
    exact absurd hi (Nat.not_lt_zero i)
  · intro i _
    exact getD_replicate _ i none
  · rfl
  · intro id hid
    simp [Vm.new] at hid
  · intro k hk
    simp [Vm.new, keys] at hk
  · exact List.nodup_nil
  · exact List.nodup_nil
  · intro p hp
    simp [Vm.new] at hp
  · intro id hid
    simp [Vm.new] at hid
  · intro i id hid
    rw [show Vm.new.stack = List.replicate STACK_MAX none from rfl,
      getD_replicate] at hid
    exact absurd hid (by simp)
  · intro i j id hi _
    rw [show Vm.new.stack = List.replicate STACK_MAX none from rfl,
      getD_replicate] at hi
    exact absurd hi (by simp)

theorem inv_push (vm : Vm) (value : ObjType) (vm' : Vm) (hInv : Inv vm)
    (h : vm.push value = some vm') : Inv vm' := by
  unfold Vm.push at h
  by_cases hlt : vm.stack_size < STACK_MAX
  case neg =>
    rw [if_neg hlt] at h
    exact absurd h (by simp)
  rw [if_pos hlt] at h
  obtain rfl := Option.some.inj h
  have hlen : vm.stack_size < vm.stack.length := by
    rw [hInv.stack_len]
    exact hlt
  refine
    { stack_len := ?_, size_le := ?_, slots_lo := ?_, slots_hi := ?_, count := ?_,
      heap_sub := ?_, store_sub := ?_, heap_nodup := ?_, keys_nodup := ?_,
      unmarked := ?_, heap_lt := ?_, stack_sub := ?_, stack_inj := ?_ }
  · show (vm.stack.set vm.stack_size (some vm.nextId)).length = STACK_MAX
    rw [List.length_set]
    exact hInv.stack_len
  · show vm.stack_size + 1 ≤ STACK_MAX
    omega
  · show ∀ i, i < vm.stack_size + 1 →
      ((vm.stack.set vm.stack_size (some vm.nextId)).getD i none).isSome = true
    intro i hi
    by_cases hieq : i = vm.stack_size
    · subst hieq
      rw [getD_set_self vm.stack vm.stack_size (some vm.nextId) none hlen]
      rfl
    · rw [getD_set_ne vm.stack i vm.stack_size (some vm.nextId) none hieq]
      exact hInv.slots_lo i (by omega)
  · show ∀ i, vm.stack_size + 1 ≤ i →
      (vm.stack.set vm.stack_size (some vm.nextId)).getD i none = none
    intro i hi
    rw [getD_set_ne vm.stack i vm.stack_size (some vm.nextId) none (by omega)]
    exact hInv.slots_hi i (by omega)
  · show vm.num_objs + 1 = (vm.heap ++ [vm.nextId]).length
    rw [List.length_append, hInv.count]
    rfl
  · show ∀ id ∈ vm.heap ++ [vm.nextId],
      id ∈ keys ((vm.nextId, { marked := false, value := value }) :: vm.store)
    intro id hid
    rcases List.mem_append.mp hid with hmem | hmem
    · exact List.mem_cons_of_mem _ (hInv.heap_sub id hmem)
    · rw [List.mem_singleton.mp hmem]
      exact List.mem_cons_self _ _
  · show ∀ k ∈ keys ((vm.nextId, { marked := false, value := value }) :: vm.store),
      k ∈ vm.heap ++ [vm.nextId]
    intro k hk
    rcases List.mem_cons.mp hk with heq | hmem
    · rw [heq]
      exact List.mem_append.mpr (Or.inr (List.mem_singleton.mpr rfl))
    · exact List.mem_append.mpr (Or.inl (hInv.store_sub k hmem))
  · show (vm.heap ++ [vm.nextId]).Nodup
    refine List.Nodup.append hInv.heap_nodup (List.nodup_singleton _) ?_
    intro a ha hb
    rw [List.mem_singleton.mp hb] at ha
    exact absurd (hInv.heap_lt _ ha) (Nat.lt_irrefl _)
  · show (keys ((vm.nextId, { marked := false, value := value }) :: vm.store)).Nodup
    refine List.nodup_cons.mpr ⟨?_, hInv.keys_nodup⟩
    intro hmem
    exact absurd (hInv.heap_lt _ (hInv.store_sub _ hmem)) (Nat.lt_irrefl _)
  · show ∀ p ∈ (vm.nextId, { marked := false, value := value }) :: vm.store,
      p.2.marked = false
    intro p hp
    rcases List.mem_cons.mp hp with heq | hmem
    · rw [heq]
    · exact hInv.unmarked p hmem
  · show ∀ id ∈ vm.heap ++ [vm.nextId], id < vm.nextId + 1
    intro id hid
    rcases List.mem_append.mp hid with hmem | hmem
    · exact Nat.lt_succ_of_lt (hInv.heap_lt id hmem)
    · rw [List.mem_singleton.mp hmem]
      exact Nat.lt_succ_self _
  · show ∀ i id, (vm.stack.set vm.stack_size (some vm.nextId)).getD i none = some id →
      id ∈ vm.heap ++ [vm.nextId]
    intro i id hid
    by_cases hieq : i = vm.stack_size
    · subst hieq
      rw [getD_set_self vm.stack vm.stack_size (some vm.nextId) none hlen] at hid
      rw [← Option.some.inj hid]
      exact List.mem_append.mpr (Or.inr (List.mem_singleton.mpr rfl))
    · rw [getD_set_ne vm.stack i vm.stack_size (some vm.nextId) none hieq] at hid
      exact List.mem_append.mpr (Or.inl (hInv.stack_sub i id hid))
  · show ∀ i j id, (vm.stack.set vm.stack_size (some vm.nextId)).getD i none = some id →
      (vm.stack.set vm.stack_size (some vm.nextId)).getD j none = some id → i = j
    intro i j id hi hj
    by_cases hieq : i = vm.stack_size <;> by_cases hjeq : j = vm.stack_size
    · rw [hieq, hjeq]
    · subst hieq
      rw [getD_set_self vm.stack vm.stack_size (some vm.nextId) none hlen] at hi
      rw [getD_set_ne vm.stack j vm.stack_size (some vm.nextId) none hjeq] at hj
      rw [← Option.some.inj hi] at hj
      exact absurd (hInv.heap_lt _ (hInv.stack_sub j _ hj)) (Nat.lt_irrefl _)
    · subst hjeq
      rw [getD_set_self vm.stack vm.stack_size (some vm.nextId) none hlen] at hj
      rw [getD_set_ne vm.stack i vm.stack_size (some vm.nextId) none hieq] at hi
      rw [← Option.some.inj hj] at hi
      exact absurd (hInv.heap_lt _ (hInv.stack_sub i _ hi)) (Nat.lt_irrefl _)
    · rw [getD_set_ne vm.stack i vm.stack_size (some vm.nextId) none hieq] at hi
      rw [getD_set_ne vm.stack j vm.stack_size (some vm.nextId) none hjeq] at hj
      exact hInv.stack_inj i j id hi hj

theorem pop_spec (vm : Vm) (id : Nat) (vm' : Vm) (h : vm.pop = some (id, vm')) :
    ∃ n, vm.stack_size = n + 1 ∧ vm.stack.getD n none = some id ∧
      vm' = { vm with stack := vm.stack.set n none, stack_size := n } := by
  unfold Vm.pop at h
  by_cases hz : vm.stack_size = 0
  · rw [if_pos hz] at h
    exact absurd h (by simp)
  · rw [if_neg hz] at h
    obtain ⟨id0, hslot, hmk⟩ := Option.map_eq_some'.mp h
    obtain ⟨n, hsz⟩ : ∃ n, vm.stack_size = n + 1 := by
      cases hvs : vm.stack_size with
      | zero => exact absurd hvs hz
      | succ m => exact ⟨m, rfl⟩
    have hn : vm.stack_size - 1 = n := by omega
    rw [hn] at hslot hmk
    have h1 : id0 = id := congrArg Prod.fst hmk
    have h2 : vm' = { vm with stack := vm.stack.set n none, stack_size := n } :=
      (congrArg Prod.snd hmk).symm
    exact ⟨n, hsz, h1 ▸ hslot, h2⟩

theorem inv_pop (vm : Vm) (id : Nat) (vm' : Vm) (hInv : Inv vm)
    (h : vm.pop = some (id, vm')) : Inv vm' := by
  obtain ⟨n, hsz, hslot, rfl⟩ := pop_spec vm id vm' h
  have hlen : n < vm.stack.length := by
    rw [hInv.stack_len]
    have := hInv.size_le
    omega
  refine
    { stack_len := ?_, size_le := ?_, slots_lo := ?_, slots_hi := ?_, count := hInv.count,
      heap_sub := hInv.heap_sub, store_sub := hInv.store_sub,
      heap_nodup := hInv.heap_nodup, keys_nodup := hInv.keys_nodup,
      unmarked := hInv.unmarked, heap_lt := hInv.heap_lt,
      stack_sub := ?_, stack_inj := ?_ }
  · show (vm.stack.set n none).length = STACK_MAX
    rw [List.length_set]
    exact hInv.stack_len
  · show n ≤ STACK_MAX
    have := hInv.size_le
    omega
  · show ∀ i, i < n → ((vm.stack.set n none).getD i none).isSome = true
    intro i hi
    rw [getD_set_ne vm.stack i n none none (by omega)]
    exact hInv.slots_lo i (by omega)
  · show ∀ i, n ≤ i → (vm.stack.set n none).getD i none = none
    intro i hi
    by_cases hieq : i = n
    · rw [hieq]
      exact getD_set_self vm.stack n none none hlen
    · rw [getD_set_ne vm.stack i n none none hieq]
      exact hInv.slots_hi i (by omega)
  · show ∀ i id2, (vm.stack.set n none).getD i none = some id2 → id2 ∈ vm.heap
    intro i id2 hid
    by_cases hieq : i = n
    · rw [hieq, getD_set_self vm.stack n none none hlen] at hid
      exact absurd hid (by simp)
    · rw [getD_set_ne vm.stack i n none none hieq] at hid
      exact hInv.stack_sub i id2 hid
  · show ∀ i j id2, (vm.stack.set n none).getD i none = some id2 →
      (vm.stack.set n none).getD j none = some id2 → i = j
    intro i j id2 hi hj
    by_cases hieq : i = n
    · rw [hieq, getD_set_self vm.stack n none none hlen] at hi
      exact absurd hi (by simp)
    · by_cases hjeq : j = n
      · rw [hjeq, getD_set_self vm.stack n none none hlen] at hj
        exact absurd hj (by simp)
      · rw [getD_set_ne vm.stack i n none none hieq] at hi
        rw [getD_set_ne vm.stack j n none none hjeq] at hj
        exact hInv.stack_inj i j id2 hi hj

/-! ### gc unfolding and preservation -/

theorem gc_stack (vm : Vm) : (vm.gc).stack = vm.stack := rfl

theorem gc_stack_size (vm : Vm) : (vm.gc).stack_size = vm.stack_size := rfl

theorem gc_nextId (vm : Vm) : (vm.gc).nextId = vm.nextId := rfl

theorem gc_store (vm : Vm) :
    (vm.gc).store = (sweepAux vm.heap (markStack vm.stack vm.store) vm.num_objs []).1 := rfl

theorem gc_num (vm : Vm) :
    (vm.gc).num_objs =
      (sweepAux vm.heap (markStack vm.stack vm.store) vm.num_objs []).2.1 := rfl

theorem gc_heap (vm : Vm) :
    (vm.gc).heap =
      (sweepAux vm.heap (markStack vm.stack vm.store) vm.num_objs []).2.2 := rfl

theorem gc_max (vm : Vm) :
    (vm.gc).max_objs =
      if (sweepAux vm.heap (markStack vm.stack vm.store) vm.num_objs []).2.1 = 0
      then INITIAL_GC_THRESHOLD
      else (sweepAux vm.heap (markStack vm.stack vm.store) vm.num_objs []).2.1 * 2 := rfl

theorem isSome_of_isMarkedS (s : Store) (k : Nat) (h : isMarkedS s k = true) :
    (lookupObj s k).isSome = true := by
  unfold isMarkedS at h
  cases hl : lookupObj s k
  · rw [hl] at h
    simp at h
  · rfl

theorem inv_gc (vm : Vm) (hInv : Inv vm) : Inv vm.gc := by
  have hkeys_t : keys (markStack vm.stack vm.store) = keys vm.store := keys_markStack _ _
  have hH_sub_t : ∀ id ∈ vm.heap, id ∈ keys (markStack vm.stack vm.store) := by
    rw [hkeys_t]
    exact hInv.heap_sub
  have hknd_t : (keys (markStack vm.stack vm.store)).Nodup := by
    rw [hkeys_t]
    exact hInv.keys_nodup
  have hlive := sweepAux_live vm.heap (markStack vm.stack vm.store) vm.num_objs []
    hInv.heap_nodup hH_sub_t
  have hlook := sweepAux_lookup vm.heap (markStack vm.stack vm.store) vm.num_objs []
    hInv.heap_nodup
  have hcount := sweepAux_count vm.heap (markStack vm.stack vm.store) vm.num_objs []
    hInv.heap_nodup hH_sub_t
  have hknd' := sweepAux_keys_nodup vm.heap (markStack vm.stack vm.store) vm.num_objs []
    hknd_t
  rw [List.nil_append] at hlive
  have hroots : ∀ i id, vm.stack.getD i none = some id →
      isMarkedS (markStack vm.stack vm.store) id = true := by
    intro i id hid
    have hmem_stack : some id ∈ vm.stack :=
      mem_of_getD vm.stack i (some id) none hid (by simp)
    exact markStack_marks_roots vm.stack vm.store id hmem_stack
      (hInv.heap_sub id (hInv.stack_sub i id hid))
  refine
    { stack_len := ?_, size_le := ?_, slots_lo := ?_, slots_hi := ?_, count := ?_,
      heap_sub := ?_, store_sub := ?_, heap_nodup := ?_, keys_nodup := ?_,
      unmarked := ?_, heap_lt := ?_, stack_sub := ?_, stack_inj := ?_ }
  · rw [gc_stack]
    exact hInv.stack_len
  · rw [gc_stack_size]
    exact hInv.size_le
  · simp only [gc_stack, gc_stack_size]
    exact hInv.slots_lo
  · simp only [gc_stack, gc_stack_size]
    exact hInv.slots_hi
  · rw [gc_num, gc_heap, hcount, hlive]
    have hpart := length_filter_partition vm.heap
      (fun id => isMarkedS (markStack vm.stack vm.store) id)
    have hc := hInv.count
    omega
  · intro id hid
    rw [gc_heap, hlive] at hid
    obtain ⟨hidH, hmk⟩ := List.mem_filter.mp hid
    rw [gc_store, ← lookup_isSome_iff, hlook id, if_pos hidH, if_pos hmk]
    have := isSome_of_isMarkedS _ id hmk
    cases hl : lookupObj (markStack vm.stack vm.store) id
    · rw [hl] at this
      simp at this
    · rfl
  · intro k hk
    rw [gc_store] at hk
    have hks := (lookup_isSome_iff _ k).mpr hk
    rw [hlook k] at hks
    by_cases hkH : k ∈ vm.heap
    · rw [if_pos hkH] at hks
      by_cases hmk : isMarkedS (markStack vm.stack vm.store) k = true
      · rw [gc_heap, hlive]
        exact List.mem_filter.mpr ⟨hkH, hmk⟩
      · rw [if_neg hmk] at hks
        simp at hks
    · rw [if_neg hkH] at hks
      have hkk : k ∈ keys (markStack vm.stack vm.store) := (lookup_isSome_iff _ k).mp hks
      rw [hkeys_t] at hkk
      exact absurd (hInv.store_sub k hkk) hkH
  · rw [gc_heap, hlive]
    exact hInv.heap_nodup.filter _
  · rw [gc_store]
    exact hknd'
  · intro p hp
    rw [gc_store] at hp
    rcases hpp : p with ⟨k, o⟩
    rw [hpp] at hp
    have hlk : lookupObj (sweepAux vm.heap (markStack vm.stack vm.store) vm.num_objs []).1 k
        = some o := mem_lookup _ k o hknd' hp
    rw [hlook k] at hlk
    by_cases hkH : k ∈ vm.heap
    · rw [if_pos hkH] at hlk
      by_cases hmk : isMarkedS (markStack vm.stack vm.store) k = true
      · rw [if_pos hmk] at hlk
        cases hl : lookupObj (markStack vm.stack vm.store) k with
        | none =>
          rw [hl] at hlk
          simp at hlk
        | some o2 =>
          rw [hl] at hlk
          have : o = { o2 with marked := false } := (Option.some.inj hlk).symm
          rw [this]
      · rw [if_neg hmk] at hlk
        simp at hlk
    · rw [if_neg hkH] at hlk
      have hkk : k ∈ keys (markStack vm.stack vm.store) :=
        (lookup_isSome_iff _ k).mp (by rw [hlk]; rfl)
      rw [hkeys_t] at hkk
      exact absurd (hInv.store_sub k hkk) hkH
  · intro id hid
    rw [gc_heap, hlive] at hid
    rw [gc_nextId]
    exact hInv.heap_lt id (List.mem_filter.mp hid).1
  · intro i id hid
    rw [gc_stack] at hid
    rw [gc_heap, hlive]
    exact List.mem_filter.mpr ⟨hInv.stack_sub i id hid, hroots i id hid⟩
  · simp only [gc_stack]
    exact hInv.stack_inj

theorem inv_step (vm : Vm) (op : Op) (vm' : Vm) (hInv : Inv vm)
    (h : vm.step op = some vm') : Inv vm' := by
  cases op with
  | pushOp value => exact inv_push vm value vm' hInv h
  | pushIntOp v => exact inv_push vm (.int v) vm' hInv h
  | pushPairOp =>
    simp only [Vm.step, Vm.push_pair] at h
    obtain ⟨⟨id1, vm1⟩, hp1, h2⟩ := Option.bind_eq_some.mp h
    obtain ⟨⟨id2, vm2⟩, hp2, h3⟩ := Option.bind_eq_some.mp h2
    exact inv_push vm2 _ vm' (inv_pop vm1 id2 vm2 (inv_pop vm id1 vm1 hInv hp1) hp2) h3
  | popOp =>
    simp only [Vm.step] at h
    obtain ⟨⟨id1, vm1⟩, hp1, h2⟩ := Option.map_eq_some'.mp h
    rw [← h2]
    exact inv_pop vm id1 vm1 hInv hp1
  | gcOp =>
    simp only [Vm.step] at h
    rw [← Option.some.inj h]
    exact inv_gc vm hInv

theorem inv_runOps (ops : List Op) : ∀ (vm vm' : Vm), Inv vm →
    runOps ops vm = some vm' → Inv vm' := by
  induction ops with
  | nil =>
    intro vm vm' hInv h
    exact (Option.some.inj h) ▸ hInv
  | cons op rest ih =>
    intro vm vm' hInv h
    simp only [runOps] at h
    obtain ⟨vm1, hstep, hrest⟩ := Option.bind_eq_some.mp h
    exact ih vm1 vm' (inv_step vm op vm1 hInv hstep) hrest

theorem inv_reachable (ops : List Op) (vm : Vm) (h : runOps ops Vm.new = some vm) :
    Inv vm :=
  inv_runOps ops Vm.new vm inv_new h

theorem runOps_append (l1 l2 : List Op) (vm : Vm) :
    runOps (l1 ++ l2) vm = (runOps l1 vm).bind (runOps l2) := by
  induction l1 generalizing vm with
  | nil => simp [runOps]
  | cons op rest ih =>
    simp only [List.cons_append, runOps]
    cases vm.step op with
    | none => simp
    | some vm1 => simp [ih vm1]

/-- A collection with an empty root stack reclaims everything. -/
theorem gc_empty_stack (vm : Vm) (hInv : Inv vm) (hsz : vm.stack_size = 0) :
    (vm.gc).num_objs = 0 ∧ (vm.gc).store = [] ∧ (vm.gc).heap = [] := by
  have hall : ∀ x ∈ vm.stack, x = none :=
    all_eq_of_getD vm.stack none (fun i => hInv.slots_hi i (hsz ▸ Nat.zero_le i))
  have ht : markStack vm.stack vm.store = vm.store := markStack_all_none vm.stack vm.store hall
  have hunm : ∀ id ∈ vm.heap, isMarkedS vm.store id = false := by
    intro id hid
    unfold isMarkedS
    cases hl : lookupObj vm.store id with
    | none => rfl
    | some o => exact hInv.unmarked (id, o) (lookup_mem _ _ _ hl)
  have hlive := sweepAux_live vm.heap vm.store vm.num_objs [] hInv.heap_nodup hInv.heap_sub
  have hcount := sweepAux_count vm.heap vm.store vm.num_objs [] hInv.heap_nodup hInv.heap_sub
  have hlook := sweepAux_lookup vm.heap vm.store vm.num_objs [] hInv.heap_nodup
  rw [List.nil_append] at hlive
  have hfilt : vm.heap.filter (fun id => isMarkedS vm.store id) = [] := by
    rw [List.filter_eq_nil]
    intro a ha
    simp [hunm a ha]
  have hfilt2 : vm.heap.filter (fun id => !(isMarkedS vm.store id)) = vm.heap := by
    apply List.filter_eq_self.mpr
    intro a ha
    simp [hunm a ha]
  refine ⟨?_, ?_, ?_⟩
  · rw [gc_num, ht, hcount, hfilt2, hInv.count]
    exact Nat.sub_self _
  · rw [gc_store, ht]
    have hnomem : ∀ k, ¬k ∈ keys ((sweepAux vm.heap vm.store vm.num_objs []).1) := by
      intro k hk
      have hks := (lookup_isSome_iff _ k).mpr hk
      rw [hlook k] at hks
      by_cases hkH : k ∈ vm.heap
      · rw [if_pos hkH, hunm k hkH] at hks
        simp at hks
      · rw [if_neg hkH] at hks
        exact hkH (hInv.store_sub k ((lookup_isSome_iff vm.store k).mp hks))
    cases hs' : (sweepAux vm.heap vm.store vm.num_objs []).1 with
    | nil => rfl
    | cons p rest =>
      exfalso
      apply hnomem p.1
      rw [hs']
      exact List.mem_map.mpr ⟨p, List.mem_cons_self _ _, rfl⟩
  · rw [gc_heap, ht, hlive, hfilt]

/-! ### Success and failure of the public operations -/

theorem push_eq_none_iff (vm : Vm) (value : ObjType) (hInv : Inv vm) :
    vm.push value = none ↔ vm.stack_size = STACK_MAX := by
  unfold Vm.push
  by_cases hlt : vm.stack_size < STACK_MAX
  · rw [if_pos hlt]
    constructor
    · intro hc
      exact absurd hc (by simp)
    · intro hc
      omega
  · rw [if_neg hlt]
    have := hInv.size_le
    constructor
    · intro _
      omega
    · intro _
      rfl

theorem pop_eq_none_iff (vm : Vm) (hInv : Inv vm) :
    vm.pop = none ↔ vm.stack_size = 0 := by
  unfold Vm.pop
  by_cases hz : vm.stack_size = 0
  · rw [if_pos hz]
    simp [hz]
  · rw [if_neg hz]
    have hlt : vm.stack_size - 1 < vm.stack_size := by omega
    have hs := hInv.slots_lo (vm.stack_size - 1) hlt
    constructor
    · intro hc
      cases hslot : vm.stack.getD (vm.stack_size - 1) none with
      | none =>
        rw [hslot] at hs
        simp at hs
      | some id =>
        rw [hslot] at hc
        simp at hc
    · intro hc
      exact absurd hc hz

theorem pop_some_of_pos (vm : Vm) (hInv : Inv vm) (h0 : vm.stack_size ≠ 0) :
    ∃ id1 vm1, vm.pop = some (id1, vm1) := by
  cases hp : vm.pop with
  | none => exact absurd ((pop_eq_none_iff vm hInv).mp hp) h0
  | some a => exact ⟨a.1, a.2, rfl⟩

theorem pop_stack_size (vm : Vm) (id1 : Nat) (vm1 : Vm) (h : vm.pop = some (id1, vm1)) :
    vm1.stack_size = vm.stack_size - 1 := by
  obtain ⟨n, hszn, _, heq⟩ := pop_spec vm id1 vm1 h
  rw [heq]
  show n = vm.stack_size - 1
  omega

theorem push_pair_eq_none_iff (vm : Vm) (hInv : Inv vm) :
    vm.push_pair = none ↔ vm.stack_size < 2 := by
  unfold Vm.push_pair
  by_cases h0 : vm.stack_size = 0
  · rw [(pop_eq_none_iff vm hInv).mpr h0]
    constructor
    · intro _
      omega
    · intro _
      rfl
  · obtain ⟨id1, vm1, hp1⟩ := pop_some_of_pos vm hInv h0
    rw [hp1]
    have hInv1 : Inv vm1 := inv_pop vm id1 vm1 hInv hp1
    have hsz1 : vm1.stack_size = vm.stack_size - 1 := pop_stack_size vm id1 vm1 hp1
    show (vm1.pop.bind fun t => t.2.push _) = none ↔ vm.stack_size < 2
    by_cases h1 : vm1.stack_size = 0
    · rw [(pop_eq_none_iff vm1 hInv1).mpr h1]
      constructor
      · intro _
        omega
      · intro _
        rfl
    · obtain ⟨id2, vm2, hp2⟩ := pop_some_of_pos vm1 hInv1 h1
      rw [hp2]
      have hInv2 : Inv vm2 := inv_pop vm1 id2 vm2 hInv1 hp2
      have hsz2 : vm2.stack_size = vm1.stack_size - 1 := pop_stack_size vm1 id2 vm2 hp2
      show vm2.push _ = none ↔ vm.stack_size < 2
      rw [push_eq_none_iff vm2 _ hInv2]
      have hle : vm.stack_size ≤ 256 := hInv.size_le
      show vm2.stack_size = 256 ↔ vm.stack_size < 2
      omega

theorem step_gc_some (vm : Vm) : vm.step Op.gcOp = some vm.gc := rfl

/-! ### Running sequences of pushes and pops -/

theorem runOps_pushes (vs : List Int) : ∀ vm : Vm, Inv vm →
    vm.stack_size + vs.length ≤ STACK_MAX →
    ∃ vm', runOps (vs.map Op.pushIntOp) vm = some vm' ∧ Inv vm' ∧
      vm'.stack_size = vm.stack_size + vs.length := by
  induction vs with
  | nil =>
    intro vm hInv _
    exact ⟨vm, rfl, hInv, by simp⟩
  | cons v rest ih =>
    intro vm hInv hle
    have hlt : vm.stack_size < STACK_MAX := by
      simp only [List.length_cons] at hle
      omega
    obtain ⟨vm1, hp⟩ : ∃ vm1, vm.push_int v = some vm1 := by
      unfold Vm.push_int Vm.push
      rw [if_pos hlt]
      exact ⟨_, rfl⟩
    have hInv1 : Inv vm1 := inv_push vm (.int v) vm1 hInv hp
    have hsz1 : vm1.stack_size = vm.stack_size + 1 := by
      unfold Vm.push_int Vm.push at hp
      rw [if_pos hlt] at hp
      rw [← Option.some.inj hp]
    obtain ⟨vm', hrun, hInv', hsz'⟩ := ih vm1 hInv1 (by
      rw [hsz1]
      simp only [List.length_cons] at hle
      omega)
    refine ⟨vm', ?_, hInv', ?_⟩
    · show (vm.push_int v).bind (runOps (rest.map Op.pushIntOp)) = some vm'
      rw [hp]
      exact hrun
    · rw [hsz', hsz1]
      simp only [List.length_cons]
      omega

theorem runOps_pops (N : Nat) : ∀ vm : Vm, Inv vm → N ≤ vm.stack_size →
    ∃ vm', runOps (List.replicate N Op.popOp) vm = some vm' ∧ Inv vm' ∧
      vm'.stack_size = vm.stack_size - N := by
  induction N with
  | zero =>
    intro vm hInv _
    exact ⟨vm, rfl, hInv, by simp⟩
  | succ n ih =>
    intro vm hInv hle
    have h0 : vm.stack_size ≠ 0 := by omega
    obtain ⟨id1, vm1, hp⟩ := pop_some_of_pos vm hInv h0
    have hInv1 := inv_pop vm id1 vm1 hInv hp
    have hsz1 : vm1.stack_size = vm.stack_size - 1 := pop_stack_size vm id1 vm1 hp
    obtain ⟨vm', hrun, hInv', hsz'⟩ := ih vm1 hInv1 (by omega)
    refine ⟨vm', ?_, hInv', ?_⟩
    · show (vm.step Op.popOp).bind (runOps (List.replicate n Op.popOp)) = some vm'
      have hstep : vm.step Op.popOp = some vm1 := by
        show (vm.pop).map Prod.snd = some vm1
        rw [hp]
        rfl
      rw [hstep]
      exact hrun
    · omega

theorem getD_drop {α : Type} (l : List α) (n j : Nat) (d : α) :
    (l.drop n).getD j d = l.getD (n + j) d := by
  induction l generalizing n with
  | nil => simp
  | cons x xs ih =>
    cases n with
    | zero => rw [Nat.zero_add]; rfl
    | succ m =>
      show (xs.drop m).getD j d = (x :: xs).getD (m + 1 + j) d
      rw [Nat.succ_add]
      exact ih m

/-! ### Claim theorems -/

/-- C1: the claim says an allocation crossing the threshold triggers a
collection automatically, so `num_objs` never exceeds `max_objs` after a push
without a collection.  The code never consults `max_objs`: pushing nine
scalars onto a fresh machine runs no collection and leaves
`num_objs = 9 > 8 = max_objs`, contradicting the claim (and the code's own
documentation of `max_objs` as the trigger count). -/
theorem c1_no_automatic_collection :
    (runOps (List.replicate 9 (Op.pushIntOp 1)) Vm.new).map
        (fun v => (v.num_objs, v.max_objs)) = some (9, 8)
    ∧ 8 < 9 :=
  ⟨by decide, by omega⟩

/-- C2: for every machine state, after `gc` the threshold is the initial
constant 8 when no objects survive, and twice the surviving live count
otherwise. -/
theorem c2_threshold_recompute (vm : Vm) :
    (vm.gc).max_objs =
      if (vm.gc).num_objs = 0 then INITIAL_GC_THRESHOLD else (vm.gc).num_objs * 2 := by
  rw [gc_max, gc_num]

/-- C3: the mark traversal returns immediately on an already-marked object;
it terminates — any fuel of at least the number of unmarked objects computes
the same (fixed-point) result, on arbitrary graphs including cycles; and on
the concrete machine whose two pair objects reference each other, both
unreachable, `gc` reclaims everything, while rooting the cycle keeps all four
objects alive. -/
theorem c3_cycle_safety :
    (∀ (fuel : Nat) (s : Store) (id : Nat), isMarkedS s id = true → markObj fuel s id = s)
    ∧ (∀ (s : Store) (f g id : Nat), countUnmarked s ≤ f → countUnmarked s ≤ g →
        markObj f s id = markObj g s id)
    ∧ ((cycVm.gc).num_objs = 0 ∧ (cycVm.gc).heap = [] ∧ (cycVm.gc).store = [])
    ∧ (cycVmRooted.gc).num_objs = 4 := by
  refine ⟨?_, ?_, by decide, by decide⟩
  · intro fuel s id h
    cases fuel with
    | zero => rfl
    | succ f =>
      unfold isMarkedS at h
      cases hl : lookupObj s id with
      | none =>
        rw [hl] at h
        simp at h
      | some o =>
        rw [hl] at h
        exact markObj_succ_marked f s id o hl h
  · exact fun s f g id hf hg =>
      markObj_stable (countUnmarked s) s f g id (Nat.le_refl _) hf hg

theorem c3_cycle_safety_witness :
    isMarkedS [(0, { marked := true, value := ObjType.int 5 })] 0 = true
    ∧ markObj 3 [(0, { marked := true, value := ObjType.int 5 })] 0 =
        [(0, { marked := true, value := ObjType.int 5 })]
    ∧ countUnmarked cycVm.store ≤ 4
    ∧ countUnmarked cycVm.store ≤ 9
    ∧ markObj 4 cycVm.store 2 = markObj 9 cycVm.store 2 :=
  ⟨by decide, c3_cycle_safety.1 3 _ 0 (by decide), by decide, by decide,
    c3_cycle_safety.2.1 cycVm.store 4 9 2 (by decide) (by decide)⟩

/-- C4: pushing any list of scalars (within capacity) and popping all of
them leaves nothing reachable, so the following `gc` drives the live count
to zero and empties both the registry and the arena of boxes. -/
theorem c4_push_pop_gc_reclaims_all (vs : List Int) (h : vs.length ≤ STACK_MAX) :
    (runOps (vs.map Op.pushIntOp ++ (List.replicate vs.length Op.popOp ++ [Op.gcOp]))
        Vm.new).map (fun v => (v.num_objs, v.heap, v.store)) = some (0, [], []) := by
  obtain ⟨vm1, hrun1, hInv1, hsz1⟩ := runOps_pushes vs Vm.new inv_new (by
    show Vm.new.stack_size + vs.length ≤ STACK_MAX
    have h0 : Vm.new.stack_size = 0 := rfl
    omega)
  have hsz1' : vm1.stack_size = vs.length := by
    have h0 : Vm.new.stack_size = 0 := rfl
    omega
  obtain ⟨vm2, hrun2, hInv2, hsz2⟩ := runOps_pops vs.length vm1 hInv1 (by omega)
  have hsz2' : vm2.stack_size = 0 := by omega
  obtain ⟨hnum, hstore, hheap⟩ := gc_empty_stack vm2 hInv2 hsz2'
  have hfull : runOps (vs.map Op.pushIntOp ++
      (List.replicate vs.length Op.popOp ++ [Op.gcOp])) Vm.new = some vm2.gc := by
    rw [runOps_append, hrun1]
    show runOps (List.replicate vs.length Op.popOp ++ [Op.gcOp]) vm1 = some vm2.gc
    rw [runOps_append, hrun2]
    show runOps [Op.gcOp] vm2 = some vm2.gc
    rfl
  rw [hfull]
  show some ((vm2.gc).num_objs, (vm2.gc).heap, (vm2.gc).store) = some (0, [], [])
  rw [hnum, hheap, hstore]

theorem c4_witness :
    ([1, 2] : List Int).length ≤ STACK_MAX
    ∧ (runOps (([1, 2] : List Int).map Op.pushIntOp ++
        (List.replicate ([1, 2] : List Int).length Op.popOp ++ [Op.gcOp]))
        Vm.new).map (fun v => (v.num_objs, v.heap, v.store)) = some (0, [], []) :=
  ⟨by decide, c4_push_pop_gc_reclaims_all [1, 2] (by decide)⟩

/-- C5: the nested-pair sequence allocates seven objects, and a collection
keeps all seven alive (everything is transitively reachable from the one
remaining root). -/
theorem c5_nested_pairs_all_live :
    ((runOps [Op.pushIntOp 1, Op.pushIntOp 2, Op.pushPairOp, Op.pushIntOp 3,
        Op.pushIntOp 4, Op.pushPairOp, Op.pushPairOp] Vm.new).map (fun v => v.num_objs)
      = some 7)
    ∧ ((runOps [Op.pushIntOp 1, Op.pushIntOp 2, Op.pushPairOp, Op.pushIntOp 3,
        Op.pushIntOp 4, Op.pushPairOp, Op.pushPairOp, Op.gcOp] Vm.new).map
        (fun v => v.num_objs) = some 7) :=
  ⟨by decide, by decide⟩

/-- C6: in every machine state reachable through the public operations, the
live counter equals the number of registry entries. -/
theorem c6_count_matches_registry (ops : List Op) (vm : Vm)
    (h : runOps ops Vm.new = some vm) : vm.num_objs = vm.heap.length :=
  (inv_reachable ops vm h).count

theorem c6_count_matches_registry_witness :
    runOps [Op.pushIntOp 1, Op.pushIntOp 2, Op.gcOp] Vm.new = some vmInvProbe
    ∧ vmInvProbe.num_objs = vmInvProbe.heap.length :=
  ⟨by decide,
    c6_count_matches_registry [Op.pushIntOp 1, Op.pushIntOp 2, Op.gcOp] vmInvProbe
      (by decide)⟩

/-- C8: destroying a machine clears the root stack and runs a final
collection, reclaiming every remaining object: counter zero, registry and
arena empty — no storage leaks. -/
theorem c8_teardown_reclaims_all (ops : List Op) (vm : Vm)
    (h : runOps ops Vm.new = some vm) :
    (vm.dropVm).num_objs = 0 ∧ (vm.dropVm).heap = [] ∧ (vm.dropVm).store = [] := by
  have hInv := inv_reachable ops vm h
  have hInv0 : Inv { vm with stack_size := 0, stack := List.replicate STACK_MAX none } := by
    refine
      { stack_len := ?_, size_le := ?_, slots_lo := ?_, slots_hi := ?_,
        count := hInv.count, heap_sub := hInv.heap_sub, store_sub := hInv.store_sub,
        heap_nodup := hInv.heap_nodup, keys_nodup := hInv.keys_nodup,
        unmarked := hInv.unmarked, heap_lt := hInv.heap_lt,
        stack_sub := ?_, stack_inj := ?_ }
    · exact List.length_replicate _ _
    · exact Nat.zero_le _
    · intro i hi
      exact absurd hi (Nat.not_lt_zero i)
    · intro i _
      exact getD_replicate _ i none
    · intro i id hid
      have hid2 : (List.replicate STACK_MAX (none : Option Nat)).getD i none = some id := hid
      rw [getD_replicate] at hid2
      exact absurd hid2 (by simp)
    · intro i j id hi _
      have hi2 : (List.replicate STACK_MAX (none : Option Nat)).getD i none = some id := hi
      rw [getD_replicate] at hi2
      exact absurd hi2 (by simp)
  obtain ⟨hnum, hstore, hheap⟩ := gc_empty_stack _ hInv0 rfl
  exact ⟨hnum, hheap, hstore⟩

theorem c8_teardown_reclaims_all_witness :
    runOps [Op.pushIntOp 5, Op.pushIntOp 6] Vm.new = some vmDropProbe
    ∧ (vmDropProbe.dropVm).num_objs = 0 ∧ (vmDropProbe.dropVm).heap = []
    ∧ (vmDropProbe.dropVm).store = [] := by
  refine ⟨by decide, ?_⟩
  exact c8_teardown_reclaims_all [Op.pushIntOp 5, Op.pushIntOp 6] vmDropProbe (by decide)

/-- C9: in every reachable state, push fails (fatally) exactly when the root
stack is at capacity, pop fails exactly when it is empty, push_pair fails
exactly when fewer than two roots are present, and gc always succeeds. -/
theorem c9_fatal_conditions (ops : List Op) (vm : Vm) (v : Int)
    (h : runOps ops Vm.new = some vm) :
    (vm.push_int v = none ↔ vm.stack_size = STACK_MAX)
    ∧ (vm.pop = none ↔ vm.stack_size = 0)
    ∧ (vm.push_pair = none ↔ vm.stack_size < 2)
    ∧ vm.step Op.gcOp = some vm.gc := by
  have hInv := inv_reachable ops vm h
  exact ⟨push_eq_none_iff vm (.int v) hInv, pop_eq_none_iff vm hInv,
    push_pair_eq_none_iff vm hInv, rfl⟩

theorem c9_fatal_conditions_witness :
    (Vm.new.push_int 0 = none ↔ Vm.new.stack_size = STACK_MAX)
    ∧ (Vm.new.pop = none ↔ Vm.new.stack_size = 0)
    ∧ (Vm.new.push_pair = none ↔ Vm.new.stack_size < 2)
    ∧ Vm.new.step Op.gcOp = some Vm.new.gc :=
  c9_fatal_conditions [] Vm.new 0 rfl

/-- C10: in every reachable state, every slot below `stack_size` holds a
reference and every slot at or above it is `None`; consequently the
mark phase, which scans all 256 slots, marks exactly from the occupied
prefix and never from a stale slot. -/
theorem c10_stack_slots (ops : List Op) (vm : Vm) (h : runOps ops Vm.new = some vm) :
    (∀ i, i < vm.stack_size → (vm.stack.getD i none).isSome = true)
    ∧ (∀ i, vm.stack_size ≤ i → vm.stack.getD i none = none)
    ∧ markStack vm.stack vm.store = markStack (vm.stack.take vm.stack_size) vm.store := by
  have hInv := inv_reachable ops vm h
  refine ⟨hInv.slots_lo, hInv.slots_hi, ?_⟩
  have hdrop : ∀ x ∈ vm.stack.drop vm.stack_size, x = none := by
    intro x hx
    rcases List.mem_iff_get.mp hx with ⟨⟨j, hj⟩, rfl⟩
    rw [← getD_eq_get _ j none hj, getD_drop]
    exact hInv.slots_hi _ (Nat.le_add_right _ _)
  conv =>
    lhs
    rw [← List.take_append_drop vm.stack_size vm.stack]
  rw [markStack_append]
  exact markStack_all_none _ _ hdrop

theorem c10_stack_slots_witness :
    runOps [Op.pushIntOp 7, Op.pushIntOp 8, Op.popOp] Vm.new = some vmSlotsProbe
    ∧ ((∀ i, i < vmSlotsProbe.stack_size →
        (vmSlotsProbe.stack.getD i none).isSome = true)
      ∧ (∀ i, vmSlotsProbe.stack_size ≤ i → vmSlotsProbe.stack.getD i none = none)
      ∧ markStack vmSlotsProbe.stack vmSlotsProbe.store =
          markStack (vmSlotsProbe.stack.take vmSlotsProbe.stack_size)
            vmSlotsProbe.store) :=
  ⟨by decide,
    c10_stack_slots [Op.pushIntOp 7, Op.pushIntOp 8, Op.popOp] vmSlotsProbe (by decide)⟩

/-- C7: with at least two roots, `push_pair` pops two references and
allocates a new pair object whose `head` is the first value popped and whose
`tail` is the second; the pair is pushed as the new top root; neither popped
child is freed — both remain in the registry and the arena, referenced by
the new pair — and neither is referenced from any root-stack slot any
longer. -/
theorem c7_push_pair_spec (ops : List Op) (vm : Vm) (hid tid : Nat)
    (h : runOps ops Vm.new = some vm) (hsz : 2 ≤ vm.stack_size)
    (hhead : vm.stack.getD (vm.stack_size - 1) none = some hid)
    (htail : vm.stack.getD (vm.stack_size - 2) none = some tid) :
    (vm.push_pair).map (fun v =>
        (lookupObj v.store vm.nextId, v.stack_size,
          v.stack.getD (vm.stack_size - 2) none,
          (lookupObj v.store hid).isSome, (lookupObj v.store tid).isSome,
          decide (hid ∈ v.heap), decide (tid ∈ v.heap),
          decide (some hid ∈ v.stack), decide (some tid ∈ v.stack)))
      = some (some { marked := false
                     value := .pair { head := some hid, tail := some tid } },
          vm.stack_size - 1, some vm.nextId, true, true, true, true, false, false) := by
  have hInv := inv_reachable ops vm h
  have hlen : vm.stack.length = STACK_MAX := hInv.stack_len
  have hle : vm.stack_size ≤ STACK_MAX := hInv.size_le
  have hhid_heap : hid ∈ vm.heap := hInv.stack_sub _ hid hhead
  have htid_heap : tid ∈ vm.heap := hInv.stack_sub _ tid htail
  have hhid_keys : hid ∈ keys vm.store := hInv.heap_sub hid hhid_heap
  have htid_keys : tid ∈ keys vm.store := hInv.heap_sub tid htid_heap
  have hhid_lt : hid < vm.nextId := hInv.heap_lt hid hhid_heap
  have htid_lt : tid < vm.nextId := hInv.heap_lt tid htid_heap
  obtain ⟨id1, vm1, hp1⟩ := pop_some_of_pos vm hInv (by omega)
  obtain ⟨n1, hszn1, hslot1, heq1⟩ := pop_spec vm id1 vm1 hp1
  have h1stack : vm1.stack = vm.stack.set n1 none := by rw [heq1]
  have h1size : vm1.stack_size = n1 := by rw [heq1]
  have h1store : vm1.store = vm.store := by rw [heq1]
  have h1heap : vm1.heap = vm.heap := by rw [heq1]
  have h1next : vm1.nextId = vm.nextId := by rw [heq1]
  have hn1 : n1 = vm.stack_size - 1 := by omega
  have hid1 : id1 = hid := by
    rw [hn1] at hslot1
    exact Option.some.inj (hslot1.symm.trans hhead)
  subst hid1
  have hInv1 := inv_pop vm id1 vm1 hInv hp1
  obtain ⟨id2, vm2, hp2⟩ := pop_some_of_pos vm1 hInv1 (by rw [h1size]; omega)
  obtain ⟨n2, hszn2, hslot2, heq2⟩ := pop_spec vm1 id2 vm2 hp2
  have hszn2' : n1 = n2 + 1 := by rw [h1size] at hszn2; exact hszn2
  have hn2 : n2 = vm.stack_size - 2 := by omega
  have hslot2' : (vm.stack.set n1 none).getD n2 none = some id2 := by
    rw [← h1stack]
    exact hslot2
  rw [getD_set_ne vm.stack n2 n1 none none (by omega)] at hslot2'
  have hid2 : id2 = tid := by
    rw [hn2] at hslot2'
    exact Option.some.inj (hslot2'.symm.trans htail)
  subst hid2
  have h2stack : vm2.stack = (vm.stack.set n1 none).set n2 none := by
    rw [heq2, h1stack]
  have h2size : vm2.stack_size = n2 := by rw [heq2]
  have h2store : vm2.store = vm.store := by rw [heq2, h1store]
  have h2heap : vm2.heap = vm.heap := by rw [heq2, h1heap]
  have h2next : vm2.nextId = vm.nextId := by rw [heq2, h1next]
  have hszlt : vm2.stack_size < STACK_MAX := by
    rw [h2size]
    omega
  obtain ⟨vmF, hp3⟩ : ∃ vmF,
      vm2.push (.pair { head := some id1, tail := some id2 }) = some vmF := by
    unfold Vm.push
    rw [if_pos hszlt]
    exact ⟨_, rfl⟩
  have heqF : vmF = { vm2 with
      store := (vm2.nextId, { marked := false
                              value := .pair { head := some id1
                                               tail := some id2 } }) :: vm2.store
      nextId := vm2.nextId + 1
      stack := vm2.stack.set vm2.stack_size (some vm2.nextId)
      heap := vm2.heap ++ [vm2.nextId]
      stack_size := vm2.stack_size + 1
      num_objs := vm2.num_objs + 1 } := by
    unfold Vm.push at hp3
    rw [if_pos hszlt] at hp3
    exact (Option.some.inj hp3).symm
  have hFstore : vmF.store = (vm.nextId,
      { marked := false
        value := .pair { head := some id1, tail := some id2 } }) :: vm.store := by
    rw [heqF, h2store, h2next]
  have hFsize : vmF.stack_size = n2 + 1 := by rw [heqF, h2size]
  have hFstack : vmF.stack =
      ((vm.stack.set n1 none).set n2 none).set n2 (some vm.nextId) := by
    rw [heqF, h2stack, h2size, h2next]
  have hFheap : vmF.heap = vm.heap ++ [vm.nextId] := by rw [heqF, h2heap, h2next]
  have hFlen : (((vm.stack.set n1 none).set n2 none).set n2 (some vm.nextId)).length
      = STACK_MAX := by
    rw [List.length_set, List.length_set, List.length_set, hlen]
  have hpp : vm.push_pair = some vmF := by
    unfold Vm.push_pair
    rw [hp1]
    show (vm1.pop.bind fun t =>
      t.2.push (.pair { head := some id1, tail := some t.1 })) = some vmF
    rw [hp2]
    exact hp3
  rw [hpp, Option.map_some']
  refine congrArg some ?_
  simp only [Prod.mk.injEq]
  refine ⟨?_, ?_, ?_, ?_, ?_, ?_, ?_, ?_, ?_⟩
  · rw [hFstore]
    simp [lookupObj]
  · rw [hFsize]
    omega
  · rw [hFstack, ← hn2]
    exact getD_set_self _ n2 _ none (by rw [List.length_set, List.length_set, hlen]; omega)
  · rw [hFstore]
    simp only [lookupObj]
    rw [if_neg (by omega)]
    exact (lookup_isSome_iff _ _).mpr hhid_keys
  · rw [hFstore]
    simp only [lookupObj]
    rw [if_neg (by omega)]
    exact (lookup_isSome_iff _ _).mpr htid_keys
  · rw [hFheap]
    simp only [decide_eq_true_eq]
    exact List.mem_append.mpr (Or.inl hhid_heap)
  · rw [hFheap]
    simp only [decide_eq_true_eq]
    exact List.mem_append.mpr (Or.inl htid_heap)
  · simp only [decide_eq_false_iff_not]
    intro hmem
    rw [hFstack] at hmem
    rcases List.mem_iff_get.mp hmem with ⟨⟨i, hilen⟩, hget⟩
    have hgetD : (((vm.stack.set n1 none).set n2 none).set n2
        (some vm.nextId)).getD i none = some id1 := by
      rw [getD_eq_get _ i none hilen]
      exact hget
    by_cases hi2 : i = n2
    · rw [hi2, getD_set_self _ n2 _ none (by
        rw [List.length_set, List.length_set, hlen]; omega)] at hgetD
      have := Option.some.inj hgetD
      omega
    · rw [getD_set_ne _ i n2 _ none hi2, getD_set_ne _ i n2 none none hi2] at hgetD
      by_cases hi1 : i = n1
      · rw [hi1, getD_set_self vm.stack n1 none none (by rw [hlen]; omega)] at hgetD
        exact absurd hgetD (by simp)
      · rw [getD_set_ne vm.stack i n1 none none hi1] at hgetD
        have hh1 : vm.stack.getD n1 none = some id1 := by
          rw [hn1]
          exact hhead
        exact hi1 (hInv.stack_inj i n1 id1 hgetD hh1)
  · simp only [decide_eq_false_iff_not]
    intro hmem
    rw [hFstack] at hmem
    rcases List.mem_iff_get.mp hmem with ⟨⟨i, hilen⟩, hget⟩
    have hgetD : (((vm.stack.set n1 none).set n2 none).set n2
        (some vm.nextId)).getD i none = some id2 := by
      rw [getD_eq_get _ i none hilen]
      exact hget
    by_cases hi2 : i = n2
    · rw [hi2, getD_set_self _ n2 _ none (by
        rw [List.length_set, List.length_set, hlen]; omega)] at hgetD
      have := Option.some.inj hgetD
      omega
    · rw [getD_set_ne _ i n2 _ none hi2, getD_set_ne _ i n2 none none hi2] at hgetD
      by_cases hi1 : i = n1
      · rw [hi1, getD_set_self vm.stack n1 none none (by rw [hlen]; omega)] at hgetD
        exact absurd hgetD (by simp)
      · rw [getD_set_ne vm.stack i n1 none none hi1] at hgetD
        have ht2 : vm.stack.getD n2 none = some id2 := by
          rw [hn2]
          exact htail
        exact hi2 (hInv.stack_inj i n2 id2 hgetD ht2)

theorem c7_push_pair_spec_witness :
    runOps [Op.pushIntOp 1, Op.pushIntOp 2] Vm.new = some vmPairProbe
    ∧ 2 ≤ vmPairProbe.stack_size
    ∧ (vmPairProbe.push_pair).map (fun v =>
        (lookupObj v.store vmPairProbe.nextId, v.stack_size,
          v.stack.getD (vmPairProbe.stack_size - 2) none,
          (lookupObj v.store 1).isSome, (lookupObj v.store 0).isSome,
          decide (1 ∈ v.heap), decide (0 ∈ v.heap),
          decide (some 1 ∈ v.stack), decide (some 0 ∈ v.stack)))
      = some (some { marked := false
                     value := .pair { head := some 1, tail := some 0 } },
          vmPairProbe.stack_size - 1, some vmPairProbe.nextId,
          true, true, true, true, false, false) :=
  ⟨by decide, by decide,
    c7_push_pair_spec [Op.pushIntOp 1, Op.pushIntOp 2] vmPairProbe 1 0
      (by decide) (by decide) (by decide) (by decide)⟩

end GC
